import Mathlib

/-!
Shallow embedding of the `configs_manager` subsystem of llm-router-web
(`src/llm_router_web/web/configs_manager/{models,utils,routes}.py`).

The relational store (SQLAlchemy over SQLite) is modelled as lists of row
records kept in insertion order; autoincrement primary keys are modelled by
per-table counters on the state.  JSON payloads (`json.load`/`json.dumps`)
are modelled by the inductive `JVal`; a stored `json_blob` column holds the
parsed value (the code writes blobs with `json.dumps` and reads them back
with `json.loads`, and `dumps` is injective on these values, so structural
equality of `JVal` corresponds to equality of the stored text).

Python exceptions raised inside a request handler abort the handler; only
changes already committed by `db.session.commit()` survive.  Operations are
therefore modelled as functions returning the resulting *committed* state
together with an HTTP-ish outcome.
-/

namespace LRW

/-- Parsed JSON values.  Python `json` distinguishes `int` and `float`
literals, hence separate `jint` and `jnum` constructors; `float` values are
modelled as rationals (the code never does arithmetic on them, it only
stores, compares with `!= 1.0`, and tests truthiness). -/
inductive JVal where
  | jnull
  | jbool (b : Bool)
  | jint (n : Int)
  | jnum (q : Rat)
  | jstr (s : String)
  | jarr (xs : List JVal)
  | jobj (kvs : List (String × JVal))

/-- Python truthiness (`bool(x)`) of a JSON value. -/
def JVal.truthy : JVal → Bool
  | .jnull => false
  | .jbool b => b
  | .jint n => n != 0
  | .jnum q => if q = 0 then false else true
  | .jstr s => !s.isEmpty
  | .jarr xs => !xs.isEmpty
  | .jobj kvs => !kvs.isEmpty

/-- Python `a or b` specialised to JSON operands. -/
def pyOr (a b : JVal) : JVal := if a.truthy then a else b

/-- Python dict assignment `d[k] = v`: replaces the value in place when the
key is already present (keeping its position), otherwise appends. -/
def dictInsert : List (String × JVal) → String → JVal → List (String × JVal)
  | [], k, v => [(k, v)]
  | (k', v') :: rest, k, v =>
      if k' == k then (k', v) :: rest else (k', v') :: dictInsert rest k v

/-- Python `d.get(k, dflt)` on a dict (parsed JSON objects have unique keys,
so first-match lookup agrees with dict lookup). -/
def dGet (kvs : List (String × JVal)) (k : String) (d : JVal) : JVal :=
  match kvs.find? (fun kv => kv.1 == k) with
  | some kv => kv.2
  | none => d

/-- Python `x.get(k, dflt)` where `x` is an arbitrary JSON value: raises
`AttributeError` (modelled as `none`) when `x` is not a dict. -/
def JVal.pyGetD : JVal → String → JVal → Option JVal
  | .jobj kvs, k, d => some (dGet kvs k d)
  | _, _, _ => none

/-- Python `x.get(k)` (default `None`). -/
def JVal.pyGet (j : JVal) (k : String) : Option JVal := j.pyGetD k .jnull

/-- Require a JSON string.  The Python code would store a non-string value
unchanged in the (dynamically typed) column; such payloads are outside the
scope of this model and are treated as failures. -/
def asStr : JVal → Option String
  | .jstr s => some s
  | _ => none

/-- Require a JSON object (`.items()` raises on anything else). -/
def asObj : JVal → Option (List (String × JVal))
  | .jobj kvs => some kvs
  | _ => none

/-- Require a JSON array (`for x in v` over a non-list is outside the scope
of this model and treated as failure). -/
def asList : JVal → Option (List JVal)
  | .jarr xs => some xs
  | _ => none

/-- Python `str.strip()`: drop leading and trailing whitespace. -/
def pyStrTrim (s : String) : String :=
  ⟨(((s.data.dropWhile Char.isWhitespace).reverse).dropWhile Char.isWhitespace).reverse⟩

/-- Value of a nonempty all-digit character run. -/
def digitsToNat? (cs : List Char) : Option Nat :=
  if cs.all Char.isDigit && !cs.isEmpty then
    some (cs.foldl (fun a c => a * 10 + (c.toNat - 48)) 0)
  else none

/-- Python `int(str)`: optional surrounding whitespace and sign, then a
nonempty digit run (underscore separators are not modelled and never arise
in the payloads considered here). -/
def pyStrToInt (s : String) : Option Int :=
  match (pyStrTrim s).data with
  | '-' :: cs => (digitsToNat? cs).map (fun n => -(n : Int))
  | '+' :: cs => (digitsToNat? cs).map (fun n => (n : Int))
  | cs => (digitsToNat? cs).map (fun n => (n : Int))

/-- Python `int(v)`: ints pass through, bools map to 0/1, floats truncate
toward zero, numeric strings parse, everything else raises. -/
def pyInt : JVal → Option Int
  | .jint n => some n
  | .jbool b => some (if b then 1 else 0)
  | .jnum q => some (q.num.tdiv (q.den : Int))
  | .jstr s => pyStrToInt s
  | _ => none

/-- Parse a decimal string `[+|-]digits[.digits]` as a rational
(approximates Python `float(str)`; exponent forms are not modelled and never
arise in the payloads considered here). -/
def parseDecimal (s : String) : Option Rat :=
  let cs := (pyStrTrim s).data
  let sb : Rat × List Char :=
    match cs with
    | '-' :: rest => (-1, rest)
    | '+' :: rest => (1, rest)
    | rest => (1, rest)
  let ip := sb.2.takeWhile (fun c => !(c == '.'))
  match sb.2.dropWhile (fun c => !(c == '.')) with
  | [] => (digitsToNat? ip).map (fun n => sb.1 * (n : Rat))
  | _ :: fp =>
      if fp.contains '.' then none
      else
        match digitsToNat? ip, digitsToNat? fp with
        | some n, some f =>
            some (sb.1 * ((n : Rat) + (f : Rat) / ((10 : Rat) ^ fp.length)))
        | _, _ => none

/-- Python `float(v)`. -/
def pyFloat : JVal → Option Rat
  | .jint n => some (n : Rat)
  | .jbool b => some (if b then 1 else 0)
  | .jnum q => some q
  | .jstr s => parseDecimal s
  | _ => none

/-! ## Data model (`models.py`) -/

/-- `Project` row (surrogate key plus the columns the routes read). -/
structure Project where
  id : Nat
  name : String
  user_id : Nat
  is_default : Bool
  description : String
deriving DecidableEq

/-- `Config` row (timestamp columns are never read by the logic modelled
here and are omitted). -/
structure Config where
  id : Nat
  name : String
  is_active : Bool
  user_id : Nat
  project_id : Nat
  description : String
deriving DecidableEq

/-- `ConfigVersion` row.  The surrogate `id` and `created_at` columns are
never read by the code and are omitted; `json_blob` holds the parsed JSON
payload (see the file header). -/
structure ConfigVersion where
  config_id : Nat
  version : Nat
  note : String
  json_blob : JVal

/-- `Model` row. -/
structure Model where
  id : Nat
  config_id : Nat
  family : String
  name : String
deriving DecidableEq

/-- `Provider` row (`order` is the explicit presentation-order column). -/
structure Provider where
  id : Nat
  model_id : Nat
  provider_id : String
  api_host : String
  api_token : String
  api_type : String
  input_size : Int
  model_path : String
  weight : Rat
  enabled : Bool
  order : Int
deriving DecidableEq

/-- `ActiveModel` row (surrogate key never read; omitted). -/
structure ActiveModel where
  config_id : Nat
  family : String
  model_name : String
deriving DecidableEq

/-- The database state: per-table row lists in insertion (rowid) order plus
autoincrement counters for the primary keys the code reads. -/
structure DB where
  projects : List Project
  configs : List Config
  models : List Model
  providers : List Provider
  actives : List ActiveModel
  versions : List ConfigVersion
  next_config_id : Nat
  next_model_id : Nat
  next_provider_id : Nat

/-- HTTP-ish outcome of a request handler. -/
inductive HStatus where
  | ok
  | badRequest
  | forbidden
  | notFound
  | flashError
  | serverError
deriving DecidableEq

/-- Outcome together with the committed database state after the handler. -/
structure HResult where
  status : HStatus
  db : DB

/-! ## Serialization (`utils.to_json`) -/

/-- The three model families, in the order the code iterates them. -/
def families : List String := ["google_models", "openai_models", "qwen_models"]

/-- Stable insertion of a provider after all entries with `order` ≤ its own
(models `ORDER BY provider.order` with ties broken by insertion order, the
behaviour documented in the spec). -/
def insOrd (p : Provider) : List Provider → List Provider
  | [] => [p]
  | q :: qs => if p.order < q.order then p :: q :: qs else q :: insOrd p qs

/-- Stable sort by the `order` column. -/
def sortByOrder (l : List Provider) : List Provider :=
  l.foldl (fun acc p => insOrd p acc) []

/-- `m.providers` relationship: providers of the model ordered by `order`. -/
def provsOf (db : DB) (mid : Nat) : List Provider :=
  sortByOrder (db.providers.filter (fun p => p.model_id == mid))

/-- One provider dict inside `to_json`: the fixed six keys plus `weight`
exactly when `api_type == "vllm"` or the weight differs from 1.0. -/
def serializeProvider (p : Provider) : JVal :=
  .jobj ([("id", .jstr p.provider_id),
          ("api_host", .jstr p.api_host),
          ("api_token", .jstr p.api_token),
          ("api_type", .jstr p.api_type),
          ("input_size", .jint p.input_size),
          ("model_path", .jstr p.model_path)]
         ++ (if p.api_type = "vllm" ∨ p.weight ≠ 1 then [("weight", .jnum p.weight)] else []))

/-- `Model.query.filter_by(config_id=..., family=...)` in rowid order. -/
def modelsFam (db : DB) (cid : Nat) (fam : String) : List Model :=
  db.models.filter (fun m => m.config_id == cid && m.family == fam)

/-- The `out[fam]` dict: one entry per model, keyed by model name, holding
the model's enabled providers serialized in `order`-sorted sequence. -/
def famEntry (db : DB) (cid : Nat) (fam : String) : List (String × JVal) :=
  (modelsFam db cid fam).foldl
    (fun acc m =>
      dictInsert acc m.name
        (.jobj [("providers",
                 .jarr (((provsOf db m.id).filter (fun p => p.enabled)).map serializeProvider))]))
    []

/-- `[a.model_name for a in cfg.actives if a.family == fam]`. -/
def activeNames (db : DB) (cid : Nat) (fam : String) : List String :=
  ((db.actives.filter (fun a => a.config_id == cid)).filter
      (fun a => a.family == fam)).map (fun a => a.model_name)

/-- `utils.to_json`: serialize a configuration to its JSON dict.  (The
`get_or_404` config lookup is a precondition of every call site modelled
here; serialization itself only reads the model/provider/active rows.) -/
def to_json (db : DB) (cid : Nat) : JVal :=
  .jobj [("google_models", .jobj (famEntry db cid "google_models")),
         ("openai_models", .jobj (famEntry db cid "openai_models")),
         ("qwen_models", .jobj (famEntry db cid "qwen_models")),
         ("active_models",
          .jobj [("google_models", .jarr ((activeNames db cid "google_models").map .jstr)),
                 ("openai_models", .jarr ((activeNames db cid "openai_models").map .jstr)),
                 ("qwen_models", .jarr ((activeNames db cid "qwen_models").map .jstr))])]

/-! ## Snapshot engine (`utils.snapshot_version`) -/

/-- `db.session.query(func.max(ConfigVersion.version)).filter_by(config_id=...)
.scalar() or 0`. -/
def maxVersion (db : DB) (cid : Nat) : Nat :=
  (db.versions.filter (fun v => v.config_id == cid)).foldl
    (fun acc v => max acc v.version) 0

/-- `utils.snapshot_version`: serialize the current state and append it as a
new `ConfigVersion` numbered `(max existing) + 1`, committing once.  (The
`updated_at` touch on the config row is not modelled; no claim reads it.) -/
def snapshot_version (db : DB) (cid : Nat) (note : String) : DB :=
  let payload := to_json db cid
  let last := maxVersion db cid
  { db with versions := db.versions ++ [⟨cid, last + 1, note, payload⟩] }

/-! ## Route handlers (`routes.py`)

Each handler takes the session user id explicitly (the global `session`
lookup of the code) plus its URL/payload arguments, and returns the
committed state with an outcome. -/

/-- `POST /configs/<id>/activate` (`set_active_config`): clear `is_active`
on every config of the session user, then set it on the fetched config, in
one commit.  The fetch is `_get_user_config` (404 unless owned). -/
def set_active_config (db : DB) (uid cid : Nat) : HResult :=
  match db.configs.find? (fun g => g.id == cid && g.user_id == uid) with
  | none => ⟨.notFound, db⟩
  | some _ =>
      let cleared := db.configs.map
        (fun g => if g.user_id == uid then { g with is_active := false } else g)
      let updated := cleared.map
        (fun g => if g.id == cid then { g with is_active := true } else g)
      ⟨.ok, { db with configs := updated }⟩

/-- Cascade delete of a project (`cascade="all, delete-orphan"` from project
to configs, config to models/actives/versions, model to providers).  Only
reached when the project owns no configs, so the cascade below is a no-op in
practice, but it is modelled for faithfulness. -/
def deleteProjectCascade (db : DB) (pid : Nat) : DB :=
  let deadCfg : Config → Bool := fun c => c.project_id == pid
  let cfgIds := (db.configs.filter deadCfg).map (fun c => c.id)
  let deadModel : Model → Bool := fun m => cfgIds.contains m.config_id
  let deadModelIds := (db.models.filter deadModel).map (fun m => m.id)
  { db with
    projects := db.projects.filter (fun pr => !(pr.id == pid)),
    configs := db.configs.filter (fun c => !deadCfg c),
    models := db.models.filter (fun m => !deadModel m),
    providers := db.providers.filter (fun p => !deadModelIds.contains p.model_id),
    actives := db.actives.filter (fun a => !cfgIds.contains a.config_id),
    versions := db.versions.filter (fun v => !cfgIds.contains v.config_id) }

/-- `POST /projects/<id>/delete` (`delete_project`): 404 unless the project
belongs to the session user; refuse (flash + redirect) when it is the
default project or still owns configs; otherwise delete and commit. -/
def delete_project (db : DB) (uid pid : Nat) : HResult :=
  match db.projects.find? (fun pr => pr.id == pid && pr.user_id == uid) with
  | none => ⟨.notFound, db⟩
  | some pr =>
      if pr.is_default then ⟨.flashError, db⟩
      else if !(db.configs.filter (fun c => c.project_id == pid)).isEmpty then
        ⟨.flashError, db⟩
      else ⟨.ok, deleteProjectCascade db pid⟩

/-- Set `order := idx` on the first provider row matching
`filter_by(id=pid, model_id=mid)`, if any (`if p: p.order = idx`). -/
def setOrderFirst (ps : List Provider) (pid mid : Nat) (idx : Int) : List Provider :=
  match ps with
  | [] => []
  | p :: rest =>
      if p.id == pid && p.model_id == mid then { p with order := idx } :: rest
      else p :: setOrderFirst rest pid mid idx

/-- `POST /models/<id>/providers/reorder` (`reorder_providers`): for each
listed provider id, in `enumerate` order, assign its list index as the new
`order`; ids not matching a provider of this model are skipped.  Commits
once, then snapshots.  (No ownership check is performed by the code.) -/
def reorder_providers (db : DB) (mid : Nat) (ids : List Nat) : HResult :=
  match db.models.find? (fun m => m.id == mid) with
  | none => ⟨.notFound, db⟩
  | some m =>
      let ps := (ids.enum).foldl
        (fun acc ip => setOrderFirst acc ip.2 mid (Int.ofNat ip.1)) db.providers
      let db' := { db with providers := ps }
      ⟨.ok, snapshot_version db' m.config_id "Reordered providers"⟩

/-- Look up a key of the request-JSON object (`field in payload`). -/
def lookupKey (payload : List (String × JVal)) (k : String) : Option JVal :=
  (payload.find? (fun kv => kv.1 == k)).map (fun kv => kv.2)

/-- The partial update performed by `update_provider`: each field is applied
only when present in the payload; `input_size`/`weight` are coerced with
`int`/`float` (raising on bad input), `enabled` with `bool`. -/
def applyProviderUpdate (payload : List (String × JVal)) (p0 : Provider) : Option Provider := do
  let p1 ← match lookupKey payload "provider_id" with
           | none => some p0
           | some v => (asStr v).map (fun s => { p0 with provider_id := s })
  let p2 ← match lookupKey payload "api_host" with
           | none => some p1
           | some v => (asStr v).map (fun s => { p1 with api_host := s })
  let p3 ← match lookupKey payload "api_token" with
           | none => some p2
           | some v => (asStr v).map (fun s => { p2 with api_token := s })
  let p4 ← match lookupKey payload "api_type" with
           | none => some p3
           | some v => (asStr v).map (fun s => { p3 with api_type := s })
  let p5 ← match lookupKey payload "model_path" with
           | none => some p4
           | some v => (asStr v).map (fun s => { p4 with model_path := s })
  let p6 ← match lookupKey payload "input_size" with
           | none => some p5
           | some v => (pyInt v).map (fun n => { p5 with input_size := n })
  let p7 ← match lookupKey payload "weight" with
           | none => some p6
           | some v => (pyFloat v).map (fun q => { p6 with weight := q })
  pure (match lookupKey payload "enabled" with
        | none => p7
        | some v => { p7 with enabled := v.truthy })

/-- Replace the first provider row with the given id (the ORM object that
was fetched and mutated). -/
def replaceProvider : List Provider → Nat → Provider → List Provider
  | [], _, _ => []
  | q :: qs, pid, pnew =>
      if q.id == pid then pnew :: qs else q :: replaceProvider qs pid pnew

/-- `POST /providers/<id>/update` (`update_provider`).  The session user
`uid` is a parameter of the request but is never consulted by the handler:
the provider is fetched by primary key alone, with no ownership check. -/
def update_provider (db : DB) (uid : Nat) (provId : Nat)
    (payload : List (String × JVal)) : HResult :=
  match db.providers.find? (fun p => p.id == provId) with
  | none => ⟨.notFound, db⟩
  | some p0 =>
      match applyProviderUpdate payload p0 with
      | none => ⟨.serverError, db⟩
      | some p1 =>
          let db' := { db with providers := replaceProvider db.providers provId p1 }
          match db.models.find? (fun m => m.id == p1.model_id) with
          | none => ⟨.serverError, db'⟩
          | some m => ⟨.ok, snapshot_version db' m.config_id
                             ("Updated provider " ++ p1.provider_id)⟩

/-- Remove the first provider row with the given id. -/
def eraseFirstProvider : List Provider → Nat → List Provider
  | [], _ => []
  | q :: qs, pid => if q.id == pid then qs else q :: eraseFirstProvider qs pid

/-- `POST /providers/<id>/delete` (`delete_provider`).  Like
`update_provider`, the handler performs no ownership check: any logged-in
user may delete any provider by id. -/
def delete_provider (db : DB) (uid : Nat) (provId : Nat) : HResult :=
  match db.providers.find? (fun p => p.id == provId) with
  | none => ⟨.notFound, db⟩
  | some p =>
      match db.models.find? (fun m => m.id == p.model_id) with
      | none => ⟨.serverError, db⟩
      | some m =>
          let db' := { db with providers := eraseFirstProvider db.providers provId }
          ⟨.ok, snapshot_version db' m.config_id ("Deleted provider " ++ p.provider_id)⟩

/-! ## Import (`import_config`, routes.py lines 509–594) -/

/-- `p.get(k, "")` then use as a string column. -/
def getStrField (kvs : List (String × JVal)) (k : String) : Option String :=
  asStr (dGet kvs k (.jstr ""))

/-- `int(p.get(k, dflt) or dflt)`. -/
def coerceIntOr (kvs : List (String × JVal)) (k : String) (dflt : Int) : Option Int :=
  pyInt (pyOr (dGet kvs k (.jint dflt)) (.jint dflt))

/-- `float(p.get(k, dflt) or dflt)`. -/
def coerceRatOr (kvs : List (String × JVal)) (k : String) (dflt : Rat) : Option Rat :=
  pyFloat (pyOr (dGet kvs k (.jnum dflt)) (.jnum dflt))

/-- One `Provider(...)` construction inside the import loop: permissive
defaults, `enabled=True` unconditionally, no `order` argument (so the column
default 0 applies). -/
def importProvider (mid rowId : Nat) (j : JVal) : Option Provider := do
  let kvs ← asObj j
  let pid ← getStrField kvs "id"
  let host ← getStrField kvs "api_host"
  let tok ← getStrField kvs "api_token"
  let typ ← getStrField kvs "api_type"
  let isize ← coerceIntOr kvs "input_size" 4096
  let mpath ← getStrField kvs "model_path"
  let w ← coerceRatOr kvs "weight" 1
  pure ⟨rowId, mid, pid, host, tok, typ, isize, mpath, w, true, 0⟩

/-- `for p in mval.get("providers", [])` of the import loop, threading the
provider id counter. -/
def importProvidersList (mid : Nat) : Nat → List JVal → Option (List Provider × Nat)
  | npid, [] => some ([], npid)
  | npid, j :: js => do
      let p ← importProvider mid npid j
      let (ps, npid') ← importProvidersList mid (npid + 1) js
      pure (p :: ps, npid')

/-- `for mname, mval in (data.get(fam) or {}).items()` of the import loop,
threading both id counters. -/
def importFamList (cid : Nat) (fam : String) :
    Nat → Nat → List (String × JVal) → Option (List Model × List Provider × Nat × Nat)
  | nmid, npid, [] => some ([], [], nmid, npid)
  | nmid, npid, (mname, mval) :: rest => do
      let kvs ← asObj mval
      let js ← asList (dGet kvs "providers" (.jarr []))
      let (ps, npid') ← importProvidersList nmid npid js
      let (ms, ps2, nmid', npid'') ← importFamList cid fam (nmid + 1) npid' rest
      pure (⟨nmid, cid, fam, mname⟩ :: ms, ps ++ ps2, nmid', npid'')

/-- The `for fam in [...]` model/provider phase of the import. -/
def importFams (data : JVal) (cid : Nat) :
    Nat → Nat → List String → Option (List Model × List Provider × Nat × Nat)
  | nmid, npid, [] => some ([], [], nmid, npid)
  | nmid, npid, fam :: fams => do
      let famv ← data.pyGet fam
      let kvs ← asObj (pyOr famv (.jobj []))
      let (ms, ps, nmid', npid') ← importFamList cid fam nmid npid kvs
      let (ms2, ps2, nmid'', npid'') ← importFams data cid nmid' npid' fams
      pure (ms ++ ms2, ps ++ ps2, nmid'', npid'')

/-- The active-models phase of the import:
`active = data.get("active_models") or {}` then
`for mname in active.get(fam, [])` per family. -/
def importActives (data : JVal) (cid : Nat) : List String → Option (List ActiveModel)
  | [] => some []
  | fam :: fams => do
      let a0 ← data.pyGet "active_models"
      let lst ← (pyOr a0 (.jobj [])).pyGetD fam (.jarr [])
      let js ← asList lst
      let names ← js.mapM asStr
      let rest ← importActives data cid fams
      pure (names.map (fun n => (⟨cid, fam, n⟩ : ActiveModel)) ++ rest)

/-- Rows added by the import between the config flush and the commit. -/
def importBuild (data : JVal) (cid : Nat) (db : DB) : Option DB := do
  let (ms, ps, nmid', npid') ← importFams data cid db.next_model_id db.next_provider_id families
  let acts ← importActives data cid families
  pure { db with
         models := db.models ++ ms,
         providers := db.providers ++ ps,
         actives := db.actives ++ acts,
         next_model_id := nmid',
         next_provider_id := npid' }

/-- `POST /configs/import` (`import_config`) on already-parsed JSON `data`
(a parse failure redirects before any DB access).  `ts` stands for the
timestamp used to derive a name when none is supplied.  Any exception in the
build loops aborts the request before the single commit, leaving the
database unchanged; on success everything is committed and then snapshotted
with note "Import JSON". -/
def import_config (db : DB) (uid : Nat) (name0 desc ts : String)
    (projId : Nat) (data : JVal) : HResult :=
  let name := if pyStrTrim name0 == "" then "import-" ++ ts else pyStrTrim name0
  match db.configs.find? (fun g => g.name == name && g.user_id == uid) with
  | some _ => ⟨.flashError, db⟩
  | none =>
      let cid := db.next_config_id
      let cfg : Config := ⟨cid, name, false, uid, projId, desc⟩
      let db0 := { db with configs := db.configs ++ [cfg], next_config_id := cid + 1 }
      match importBuild data cid db0 with
      | none => ⟨.serverError, db⟩
      | some db2 => ⟨.ok, snapshot_version db2 cid "Import JSON"⟩

/-! ## Restore (`restore_version`, routes.py lines 863–924) -/

/-- One `Provider(...)` construction inside the restore rebuild loop: like
import, but `enabled=bool(p.get("enabled", True))` and `order=idx` from
`enumerate`. -/
def restoreProvider (mid rowId idx : Nat) (j : JVal) : Option Provider := do
  let kvs ← asObj j
  let pid ← getStrField kvs "id"
  let host ← getStrField kvs "api_host"
  let tok ← getStrField kvs "api_token"
  let typ ← getStrField kvs "api_type"
  let isize ← coerceIntOr kvs "input_size" 4096
  let mpath ← getStrField kvs "model_path"
  let w ← coerceRatOr kvs "weight" 1
  pure ⟨rowId, mid, pid, host, tok, typ, isize, mpath, w,
        (dGet kvs "enabled" (.jbool true)).truthy, Int.ofNat idx⟩

/-- `for idx, p in enumerate(mval.get("providers", []))` of the rebuild. -/
def restoreProvidersList (mid : Nat) : Nat → Nat → List JVal → Option (List Provider × Nat)
  | npid, _, [] => some ([], npid)
  | npid, idx, j :: js => do
      let p ← restoreProvider mid npid idx j
      let (ps, npid') ← restoreProvidersList mid (npid + 1) (idx + 1) js
      pure (p :: ps, npid')

/-- `for mname, mval in (data.get(fam) or {}).items()` of the rebuild. -/
def restoreFamList (cid : Nat) (fam : String) :
    Nat → Nat → List (String × JVal) → Option (List Model × List Provider × Nat × Nat)
  | nmid, npid, [] => some ([], [], nmid, npid)
  | nmid, npid, (mname, mval) :: rest => do
      let kvs ← asObj mval
      let js ← asList (dGet kvs "providers" (.jarr []))
      let (ps, npid') ← restoreProvidersList nmid npid 0 js
      let (ms, ps2, nmid', npid'') ← restoreFamList cid fam (nmid + 1) npid' rest
      pure (⟨nmid, cid, fam, mname⟩ :: ms, ps ++ ps2, nmid', npid'')

/-- The `for fam in [...]` model/provider phase of the rebuild. -/
def restoreFams (data : JVal) (cid : Nat) :
    Nat → Nat → List String → Option (List Model × List Provider × Nat × Nat)
  | nmid, npid, [] => some ([], [], nmid, npid)
  | nmid, npid, fam :: fams => do
      let famv ← data.pyGet fam
      let kvs ← asObj (pyOr famv (.jobj []))
      let (ms, ps, nmid', npid') ← restoreFamList cid fam nmid npid kvs
      let (ms2, ps2, nmid'', npid'') ← restoreFams data cid nmid' npid' fams
      pure (ms ++ ms2, ps ++ ps2, nmid'', npid'')

/-- `for mname in data.get("active_models", {}).get(fam) or []` per family. -/
def restoreActives (data : JVal) (cid : Nat) : List String → Option (List ActiveModel)
  | [] => some []
  | fam :: fams => do
      let am ← data.pyGetD "active_models" (.jobj [])
      let b ← am.pyGet fam
      let js ← asList (pyOr b (.jarr []))
      let names ← js.mapM asStr
      let rest ← restoreActives data cid fams
      pure (names.map (fun n => (⟨cid, fam, n⟩ : ActiveModel)) ++ rest)

/-- The delete phase of the restore, committed on its own: bulk-delete the
config's providers (matched through their model), then its models, then its
active-model rows.  Versions are untouched. -/
def clearConfigState (db : DB) (cid : Nat) : DB :=
  { db with
    providers := db.providers.filter
      (fun p => !(db.models.any (fun m => m.id == p.model_id && m.config_id == cid))),
    models := db.models.filter (fun m => !(m.config_id == cid)),
    actives := db.actives.filter (fun a => !(a.config_id == cid)) }

/-- The rebuild phase of the restore (models with providers, then actives),
committed as a second transaction when it succeeds. -/
def restoreBuild (data : JVal) (cid : Nat) (db1 : DB) : Option DB := do
  let (ms, ps, nmid', npid') ← restoreFams data cid db1.next_model_id db1.next_provider_id families
  let acts ← restoreActives data cid families
  pure { db1 with
         models := db1.models ++ ms,
         providers := db1.providers ++ ps,
         actives := db1.actives ++ acts,
         next_model_id := nmid',
         next_provider_id := npid' }

/-- `POST /configs/<id>/versions/<v>/restore` (`restore_version`): fetch the
owned config and the version row, read its blob, commit the delete phase,
then run the rebuild phase.  An exception during the rebuild aborts the
request, but the delete phase has already been committed, so the cleared
state persists (`serverError` outcome below).  On success the rebuild is
committed and the restored state snapshotted. -/
def restore_version (db : DB) (uid cid ver : Nat) : HResult :=
  match db.configs.find? (fun g => g.id == cid && g.user_id == uid) with
  | none => ⟨.notFound, db⟩
  | some _ =>
      match db.versions.find? (fun v => v.config_id == cid && v.version == ver) with
      | none => ⟨.notFound, db⟩
      | some v =>
          let db1 := clearConfigState db cid
          match restoreBuild v.json_blob cid db1 with
          | none => ⟨.serverError, db1⟩
          | some db2 =>
              ⟨.ok, snapshot_version db2 cid ("Restored version " ++ toString ver)⟩

/-! ## Canonical blob descriptions

`to_json` only ever produces blobs of one fixed shape.  `BlobDesc` is an
abstract description of such a blob and `encodeBlob` its canonical JSON
encoding; stored snapshot blobs are exactly the `encodeBlob` images. -/

/-- Description of one serialized provider entry. -/
structure PDesc where
  pid : String
  api_host : String
  api_token : String
  api_type : String
  input_size : Int
  model_path : String
  weight : Rat
deriving DecidableEq

/-- Encoding of one provider entry, with the `weight` key present exactly
under `to_json`'s condition. -/
def encodePDesc (d : PDesc) : JVal :=
  .jobj ([("id", .jstr d.pid),
          ("api_host", .jstr d.api_host),
          ("api_token", .jstr d.api_token),
          ("api_type", .jstr d.api_type),
          ("input_size", .jint d.input_size),
          ("model_path", .jstr d.model_path)]
         ++ (if d.api_type = "vllm" ∨ d.weight ≠ 1 then [("weight", .jnum d.weight)] else []))

/-- Association-list form of one family's encoding. -/
def encodeEntries (es : List (String × List PDesc)) : List (String × JVal) :=
  es.map (fun e => (e.1, JVal.jobj [("providers", .jarr (e.2.map encodePDesc))]))

/-- Encoding of one family: model name ↦ its provider list. -/
def encodeFam (es : List (String × List PDesc)) : JVal := .jobj (encodeEntries es)

/-- Description of a whole blob: three families plus active-model names. -/
structure BlobDesc where
  gm : List (String × List PDesc)
  om : List (String × List PDesc)
  qm : List (String × List PDesc)
  ag : List String
  ao : List String
  aq : List String

/-- Canonical encoding of a blob description (the image shape of `to_json`). -/
def encodeBlob (D : BlobDesc) : JVal :=
  .jobj [("google_models", encodeFam D.gm),
         ("openai_models", encodeFam D.om),
         ("qwen_models", encodeFam D.qm),
         ("active_models",
          .jobj [("google_models", .jarr (D.ag.map .jstr)),
                 ("openai_models", .jarr (D.ao.map .jstr)),
                 ("qwen_models", .jarr (D.aq.map .jstr))])]

/-- Truthy provider fields: a zero `input_size` or a zero `weight` is falsy
in Python and is silently replaced by the default through `or`, so exact
round-trips need them nonzero. -/
def GoodEntry (e : String × List PDesc) : Prop :=
  ∀ d ∈ e.2, d.input_size ≠ 0 ∧ d.weight ≠ 0

/-- A well-behaved family description: distinct model names (dict keys) and
truthy provider fields. -/
def GoodFam (es : List (String × List PDesc)) : Prop :=
  (es.map Prod.fst).Nodup ∧ ∀ e ∈ es, GoodEntry e

/-- A well-behaved blob description. -/
def GoodBlobDesc (D : BlobDesc) : Prop := GoodFam D.gm ∧ GoodFam D.om ∧ GoodFam D.qm

instance : DecidablePred GoodEntry := fun _ => by unfold GoodEntry; infer_instance
instance : DecidablePred GoodFam := fun _ => by unfold GoodFam; infer_instance
instance (D : BlobDesc) : Decidable (GoodBlobDesc D) := by unfold GoodBlobDesc; infer_instance

/-- Primary-key freshness: every stored id (and foreign key into an
autoincrement column) is below the corresponding counter.  This is the
invariant the autoincrement storage maintains. -/
def Fresh (db : DB) : Prop :=
  (∀ c ∈ db.configs, c.id < db.next_config_id) ∧
  (∀ m ∈ db.models, m.id < db.next_model_id ∧ m.config_id < db.next_config_id) ∧
  (∀ p ∈ db.providers, p.id < db.next_provider_id ∧ p.model_id < db.next_model_id) ∧
  (∀ a ∈ db.actives, a.config_id < db.next_config_id)

instance (db : DB) : Decidable (Fresh db) := by unfold Fresh; infer_instance

/-! ## Blob observers (used to distinguish concrete blobs) -/

/-- Look up a key of a JSON object (first occurrence). -/
def objGet (j : JVal) (k : String) : Option JVal :=
  match j with
  | .jobj kvs => (kvs.find? (fun kv => kv.1 == k)).map (fun kv => kv.2)
  | _ => none

/-- The providers array of one model inside a blob. -/
def blobProviders (blob : JVal) (fam name : String) : Option (List JVal) := do
  let famv ← objGet blob fam
  let mv ← objGet famv name
  let pv ← objGet mv "providers"
  asList pv

/-- Whether provider number `idx` of the given model carries a `weight` key. -/
def blobWeightKeyAt (blob : JVal) (fam name : String) (idx : Nat) : Bool :=
  match blobProviders blob fam name with
  | some js =>
      match js.get? idx with
      | some (.jobj kvs) => (kvs.find? (fun kv => kv.1 == "weight")).isSome
      | _ => false
  | none => false

/-! ## C1: gap-free version numbering -/

/-- The version numbers stored for a config, in insertion order. -/
def versionsOf (db : DB) (cid : Nat) : List Nat :=
  (db.versions.filter (fun v => v.config_id == cid)).map (fun v => v.version)

/-- Each config's version numbers are exactly `1, 2, ..., N` in order. -/
def VersionsGapFree (db : DB) : Prop :=
  ∀ c, versionsOf db c = List.range' 1 (versionsOf db c).length

/-- A sequence of snapshot operations (config id and note for each). -/
def applySnapshots (db : DB) (ops : List (Nat × String)) : DB :=
  ops.foldl (fun s op => snapshot_version s op.1 op.2) db

theorem maxVersion_eq_foldl (db : DB) (c : Nat) :
    maxVersion db c = (versionsOf db c).foldl (fun a n => max a n) 0 := by
  simp [maxVersion, versionsOf, List.foldl_map]

theorem foldl_max_range' (n : Nat) :
    (List.range' 1 n).foldl (fun a n => max a n) 0 = n := by
  induction n with
  | zero => rfl
  | succ k ih =>
      rw [List.range'_concat, List.foldl_append, ih]
      simp
      omega

theorem versionsOf_snapshot (db : DB) (cid : Nat) (note : String) (c : Nat) :
    versionsOf (snapshot_version db cid note) c =
      versionsOf db c ++ (if cid = c then [maxVersion db cid + 1] else []) := by
  by_cases h : cid = c <;>
    simp [versionsOf, snapshot_version, List.filter_append, h]

theorem snapshot_preserves_gapfree (db : DB) (cid : Nat) (note : String)
    (h : VersionsGapFree db) : VersionsGapFree (snapshot_version db cid note) := by
  intro c
  have hmax : maxVersion db cid = (versionsOf db cid).length := by
    rw [maxVersion_eq_foldl, h cid, List.length_range', foldl_max_range']
  rw [versionsOf_snapshot]
  by_cases hc : cid = c
  · subst hc
    rw [hmax, h cid]
    simp [List.range'_concat]
    omega
  · simpa [hc] using h c

theorem applySnapshots_gapfree (ops : List (Nat × String)) :
    ∀ db : DB, VersionsGapFree db → VersionsGapFree (applySnapshots db ops) := by
  induction ops with
  | nil => exact fun db h => h
  | cons op rest ih =>
      intro db h
      exact ih _ (snapshot_preserves_gapfree db op.1 op.2 h)

/-- Claim C1: starting from any state whose per-config version numbers are
gap-free (`1..N`), every sequence of snapshot operations keeps them
gap-free, and each single `snapshot_version` call appends exactly the
number `(current count) + 1 = (max existing) + 1` for its config, in the
same committed write as the snapshot row. -/
theorem c1_snapshot_version_numbers_gapfree
    (db : DB) (c : Nat) (note : String) (h : VersionsGapFree db) :
    (∀ ops : List (Nat × String), VersionsGapFree (applySnapshots db ops)) ∧
    versionsOf (snapshot_version db c note) c
      = versionsOf db c ++ [(versionsOf db c).length + 1] := by
  refine ⟨fun ops => applySnapshots_gapfree ops db h, ?_⟩
  have hmax : maxVersion db c = (versionsOf db c).length := by
    rw [maxVersion_eq_foldl, h c, List.length_range', foldl_max_range']
  rw [versionsOf_snapshot, hmax]
  simp

/-- Empty database used as a common starting point for witnesses. -/
def dbEmpty : DB := ⟨[], [], [], [], [], [], 1, 1, 1⟩

theorem c1_witness :
    VersionsGapFree dbEmpty ∧
    ((∀ ops : List (Nat × String), VersionsGapFree (applySnapshots dbEmpty ops)) ∧
     versionsOf (snapshot_version dbEmpty 1 "n") 1 = versionsOf dbEmpty 1 ++ [1]) :=
  ⟨fun _ => rfl, c1_snapshot_version_numbers_gapfree dbEmpty 1 "n" (fun _ => rfl)⟩

/-! ## Shared concrete example states -/

/-- Seed state: user 1 owns config 1 with one google model `m` whose single
enabled provider has weight 0 (reachable via `update_provider` with
`weight: 0`, since the update path coerces with a bare `float(...)`). -/
def seedDb : DB :=
  { projects := [⟨1, "default_project", 1, true, ""⟩],
    configs := [⟨1, "cfg", false, 1, 1, ""⟩],
    models := [⟨1, 1, "google_models", "m"⟩],
    providers := [⟨1, 1, "p1", "http://h", "tok", "openai", 4096, "", 0, true, 0⟩],
    actives := [⟨1, "google_models", "m"⟩],
    versions := [],
    next_config_id := 2, next_model_id := 2, next_provider_id := 2 }

/-- A stored blob whose provider entry carries a non-numeric `input_size`,
making the rebuild's `int(...)` coercion raise. -/
def badBlob : JVal :=
  .jobj [("google_models",
          .jobj [("m", .jobj [("providers", .jarr [.jobj [("input_size", .jstr "oops")]])])])]

/-- Seed state with the bad blob stored as version 1 of config 1. -/
def dbWithBadVersion : DB := { seedDb with versions := [⟨1, 1, "v1", badBlob⟩] }

/-! ## C2: restore is not all-or-nothing -/

/-- Claim C2 counterexample: on a state whose config 1 has a model and a
provider, restoring a version whose rebuild fails (non-numeric
`input_size`) ends in an error *with the deletions committed*: the model
and provider rows are gone, so the config is left half-deleted rather than
rolled back. -/
theorem c2_counterexample :
    (restore_version dbWithBadVersion 1 1 1).status = HStatus.serverError ∧
    (restore_version dbWithBadVersion 1 1 1).db.models = [] ∧
    (restore_version dbWithBadVersion 1 1 1).db.providers = [] ∧
    dbWithBadVersion.models = [⟨1, 1, "google_models", "m"⟩] := by
  refine ⟨by rfl, by rfl, by rfl, rfl⟩

/-- Claim C2 (amended): `restore_version` commits its delete phase in a
separate transaction before the rebuild phase, so when the rebuild fails
the deletions are *not* rolled back: the request errors out with the
config's models, providers and active-model rows already removed (while
the version history is untouched). -/
theorem c2_rebuild_failure_keeps_deletions
    (db : DB) (uid cid ver : Nat) (cfg : Config) (v : ConfigVersion)
    (hc : db.configs.find? (fun g => g.id == cid && g.user_id == uid) = some cfg)
    (hv : db.versions.find? (fun w => w.config_id == cid && w.version == ver) = some v)
    (hfail : restoreBuild v.json_blob cid (clearConfigState db cid) = none) :
    restore_version db uid cid ver = ⟨.serverError, clearConfigState db cid⟩ ∧
    (clearConfigState db cid).models.filter (fun m => m.config_id == cid) = [] ∧
    (clearConfigState db cid).actives.filter (fun a => a.config_id == cid) = [] ∧
    (∀ p ∈ (clearConfigState db cid).providers, ∀ m ∈ db.models,
        m.config_id = cid → p.model_id ≠ m.id) ∧
    (clearConfigState db cid).versions = db.versions := by
  refine ⟨?_, ?_, ?_, ?_, rfl⟩
  · simp [restore_version, hc, hv, hfail]
  · simp [clearConfigState, List.filter_filter]
  · simp [clearConfigState, List.filter_filter]
  · intro p hp m hm hcfg
    simp only [clearConfigState, List.mem_filter] at hp
    obtain ⟨-, hno⟩ := hp
    simp only [Bool.not_eq_true', List.any_eq_false] at hno
    intro hpm
    exact absurd (by simp [hpm, hcfg]) (hno m hm)

theorem c2_witness :
    (dbWithBadVersion.configs.find? (fun g => g.id == 1 && g.user_id == 1)
       = some ⟨1, "cfg", false, 1, 1, ""⟩) ∧
    (dbWithBadVersion.versions.find? (fun w => w.config_id == 1 && w.version == 1)
       = some ⟨1, 1, "v1", badBlob⟩) ∧
    (restoreBuild badBlob 1 (clearConfigState dbWithBadVersion 1) = none) ∧
    restore_version dbWithBadVersion 1 1 1 = ⟨.serverError, clearConfigState dbWithBadVersion 1⟩ :=
  ⟨rfl, rfl, by rfl,
   (c2_rebuild_failure_keeps_deletions dbWithBadVersion 1 1 1 _ _ rfl rfl (by rfl)).1⟩

/-! ## C3: provider mutations lack the ownership check -/

/-- Claim C3 is violated by the code (code bug): config 1 of `seedDb` is
owned by user 1, yet user 2's `update_provider` request on its provider
succeeds (HTTP 200, not 403) and flips the `enabled` flag, and user 2's
`delete_provider` request succeeds and removes the row: the provider
endpoints fetch by primary key only and never compare owners. -/
theorem c3_provider_mutations_lack_ownership_check :
    (seedDb.configs.map (fun g => g.user_id)) = [1] ∧
    (update_provider seedDb 2 1 [("enabled", .jbool false)]).status = HStatus.ok ∧
    ((update_provider seedDb 2 1 [("enabled", .jbool false)]).db.providers.map
        (fun p => p.enabled)) = [false] ∧
    (delete_provider seedDb 2 1).status = HStatus.ok ∧
    (delete_provider seedDb 2 1).db.providers = [] := by
  refine ⟨rfl, by rfl, by rfl, by rfl, by rfl⟩

/-! ## C8: delete_project guards -/

/-- Claim C8: deleting a project found for the session user fails with a
flash error and leaves the whole state unchanged whenever the project is
the default one or still owns at least one config; otherwise the project
row is removed and every other table is untouched. -/
theorem c8_delete_project_guards
    (db : DB) (uid pid : Nat) (pr : Project)
    (hf : db.projects.find? (fun q => q.id == pid && q.user_id == uid) = some pr) :
    ((pr.is_default = true ∨ db.configs.filter (fun c => c.project_id == pid) ≠ []) →
       delete_project db uid pid = ⟨.flashError, db⟩) ∧
    (pr.is_default = false →
     db.configs.filter (fun c => c.project_id == pid) = [] →
       (delete_project db uid pid).status = .ok ∧
       (delete_project db uid pid).db.projects
         = db.projects.filter (fun q => !(q.id == pid)) ∧
       (delete_project db uid pid).db.configs = db.configs ∧
       (delete_project db uid pid).db.models = db.models ∧
       (delete_project db uid pid).db.providers = db.providers ∧
       (delete_project db uid pid).db.actives = db.actives ∧
       (delete_project db uid pid).db.versions = db.versions) := by
  constructor
  · intro h
    rcases h with hdef | hconf
    · simp [delete_project, hf, hdef]
    · have hne : (db.configs.filter (fun c => c.project_id == pid)).isEmpty = false := by
        cases hcc : db.configs.filter (fun c => c.project_id == pid) with
        | nil => exact absurd hcc hconf
        | cons a l => rfl
      by_cases hdef : pr.is_default = true <;> simp_all [delete_project, hf]
  · intro hdef hconf
    have hmem : ∀ c ∈ db.configs, (c.project_id == pid) = false := by
      intro c hcmem
      have := List.filter_eq_nil_iff.mp hconf c hcmem
      simpa using this
    have hid : (db.configs.filter (fun c => c.project_id == pid)).map (fun c => c.id) = [] := by
      rw [hconf]; rfl
    have hcfgkeep : db.configs.filter (fun c => !(c.project_id == pid)) = db.configs := by
      apply List.filter_eq_self.mpr
      intro c hcmem
      simp [hmem c hcmem]
    simp [delete_project, hf, hdef, hconf, deleteProjectCascade, hid, hcfgkeep]

theorem c8_witness :
    (dbEmpty.projects ++ [⟨2, "side", 1, false, ""⟩] = [⟨2, "side", 1, false, ""⟩]) ∧
    (([⟨2, "side", 1, false, ""⟩] : List Project).find?
        (fun q => q.id == 2 && q.user_id == 1) = some ⟨2, "side", 1, false, ""⟩) ∧
    ((Project.is_default ⟨2, "side", 1, false, ""⟩ = true ∨
        ((dbEmpty : DB).configs.filter (fun c => c.project_id == 2)) ≠ []) →
      delete_project { dbEmpty with projects := [⟨2, "side", 1, false, ""⟩] } 1 2
        = ⟨.flashError, { dbEmpty with projects := [⟨2, "side", 1, false, ""⟩] }⟩) ∧
    ((delete_project { dbEmpty with projects := [⟨2, "side", 1, false, ""⟩] } 1 2).status = .ok) := by
  have h := c8_delete_project_guards
    { dbEmpty with projects := [⟨2, "side", 1, false, ""⟩] } 1 2 ⟨2, "side", 1, false, ""⟩ rfl
  exact ⟨rfl, rfl, fun hh => h.1 hh, (h.2 rfl rfl).1⟩

/-! ## C7: activation exclusivity -/

/-- Claim C7: when the activated config exists and is owned by the session
user (and primary keys are unique), the activation endpoint succeeds, the
resulting config table equals the original with `is_active := (id = cid)`
on exactly the user's configs, hence the target is active, every other
config of that user is inactive, other users' rows are untouched, and
"at most one active config per user" is preserved for every user. -/
theorem c7_set_active_exclusive
    (db : DB) (uid cid : Nat)
    (hid : (db.configs.map (fun g => g.id)).Nodup)
    (hex : ∃ g0 ∈ db.configs, g0.id = cid ∧ g0.user_id = uid) :
    (set_active_config db uid cid).status = .ok ∧
    (set_active_config db uid cid).db.configs
      = db.configs.map (fun g =>
          if g.user_id == uid then { g with is_active := g.id == cid } else g) ∧
    (∀ g ∈ (set_active_config db uid cid).db.configs,
        g.user_id = uid → (g.is_active = true ↔ g.id = cid)) ∧
    (∀ g ∈ (set_active_config db uid cid).db.configs, g.user_id ≠ uid → g ∈ db.configs) ∧
    (∀ u, (∀ g1 ∈ db.configs, ∀ g2 ∈ db.configs,
            g1.user_id = u → g2.user_id = u →
            g1.is_active = true → g2.is_active = true → g1.id = g2.id) →
        ∀ g1 ∈ (set_active_config db uid cid).db.configs,
        ∀ g2 ∈ (set_active_config db uid cid).db.configs,
          g1.user_id = u → g2.user_id = u →
          g1.is_active = true → g2.is_active = true → g1.id = g2.id) := by
  obtain ⟨g0, hg0m, hg0id, hg0u⟩ := hex
  have hfind : (db.configs.find? (fun g => g.id == cid && g.user_id == uid)).isSome :=
    List.find?_isSome.mpr ⟨g0, hg0m, by simp [hg0id, hg0u]⟩
  obtain ⟨gg, hgg⟩ := Option.isSome_iff_exists.mp hfind
  have hchar : (set_active_config db uid cid).db.configs
      = db.configs.map (fun g =>
          if g.user_id == uid then { g with is_active := g.id == cid } else g) := by
    simp only [set_active_config, hgg, List.map_map]
    apply List.map_congr_left
    intro g hg
    by_cases hu : g.user_id = uid
    · by_cases hc : g.id = cid <;> simp [Function.comp, hu, hc]
    · have hne : g.id ≠ cid := by
        intro hgc
        have heq : g = g0 :=
          List.inj_on_of_nodup_map hid hg hg0m (by rw [hgc, hg0id])
        exact hu (heq ▸ hg0u)
      simp [Function.comp, hu, hne]
  have hactive : ∀ g ∈ (set_active_config db uid cid).db.configs,
      g.user_id = uid → (g.is_active = true ↔ g.id = cid) := by
    intro g hg hu
    rw [hchar] at hg
    obtain ⟨g', hg', rfl⟩ := List.mem_map.mp hg
    by_cases hu' : g'.user_id = uid
    · simp [hu']
    · rw [if_neg (by simpa using hu')] at hu
      exact absurd hu hu'
  have hother : ∀ g ∈ (set_active_config db uid cid).db.configs,
      g.user_id ≠ uid → g ∈ db.configs := by
    intro g hg hu
    rw [hchar] at hg
    obtain ⟨g', hg', rfl⟩ := List.mem_map.mp hg
    by_cases hu' : g'.user_id = uid
    · rw [if_pos (by simpa using hu')] at hu
      exact absurd hu' (by simpa using hu)
    · rw [if_neg (by simpa using hu')]
      exact hg'
  refine ⟨by simp [set_active_config, hgg], hchar, hactive, hother, ?_⟩
  intro u hprev g1 hg1 g2 hg2 hu1 hu2 ha1 ha2
  by_cases huu : u = uid
  · subst huu
    rw [(hactive g1 hg1 hu1).mp ha1, (hactive g2 hg2 hu2).mp ha2]
  · have h1 : g1 ∈ db.configs := hother g1 hg1 (by rw [hu1]; exact huu)
    have h2 : g2 ∈ db.configs := hother g2 hg2 (by rw [hu2]; exact huu)
    exact hprev g1 h1 g2 h2 hu1 hu2 ha1 ha2

/-- Two-config state for the C7 witness: both configs belong to user 1 and
config 2 starts active. -/
def dbTwoCfg : DB :=
  { dbEmpty with
    configs := [⟨1, "a", false, 1, 1, ""⟩, ⟨2, "b", true, 1, 1, ""⟩],
    next_config_id := 3 }

theorem c7_witness :
    ((dbTwoCfg.configs.map (fun g => g.id)).Nodup ∧
     ∃ g0 ∈ dbTwoCfg.configs, g0.id = 1 ∧ g0.user_id = 1) ∧
    ((set_active_config dbTwoCfg 1 1).status = .ok ∧
     (set_active_config dbTwoCfg 1 1).db.configs
       = dbTwoCfg.configs.map (fun g =>
           if g.user_id == 1 then { g with is_active := g.id == 1 } else g) ∧
     (∀ g ∈ (set_active_config dbTwoCfg 1 1).db.configs,
         g.user_id = 1 → (g.is_active = true ↔ g.id = 1)) ∧
     (∀ g ∈ (set_active_config dbTwoCfg 1 1).db.configs, g.user_id ≠ 1 → g ∈ dbTwoCfg.configs) ∧
     (∀ u, (∀ g1 ∈ dbTwoCfg.configs, ∀ g2 ∈ dbTwoCfg.configs,
             g1.user_id = u → g2.user_id = u →
             g1.is_active = true → g2.is_active = true → g1.id = g2.id) →
         ∀ g1 ∈ (set_active_config dbTwoCfg 1 1).db.configs,
         ∀ g2 ∈ (set_active_config dbTwoCfg 1 1).db.configs,
           g1.user_id = u → g2.user_id = u →
           g1.is_active = true → g2.is_active = true → g1.id = g2.id)) :=
  ⟨⟨by decide, ⟨⟨1, "a", false, 1, 1, ""⟩, by decide, rfl, rfl⟩⟩,
   c7_set_active_exclusive dbTwoCfg 1 1 (by decide)
     ⟨⟨1, "a", false, 1, 1, ""⟩, by decide, rfl, rfl⟩⟩

/-! ## C9: provider reordering -/

/-- Zero-based index of the first occurrence of `x` (callers guarantee
membership). -/
def idxOf : List Nat → Nat → Nat
  | [], _ => 0
  | y :: ys, x => if y = x then 0 else idxOf ys x + 1

theorem setOrderFirst_eq_map (ps : List Provider) (pid mid : Nat) (idx : Int)
    (h : (ps.map (fun p => p.id)).Nodup) :
    setOrderFirst ps pid mid idx
      = ps.map (fun p =>
          if p.id = pid ∧ p.model_id = mid then { p with order := idx } else p) := by
  induction ps with
  | nil => rfl
  | cons p rest ih =>
      simp only [List.map_cons, List.nodup_cons, List.mem_map] at h
      obtain ⟨hpid, hnd⟩ := h
      by_cases hc : p.id = pid ∧ p.model_id = mid
      · have htail : rest.map (fun q =>
            if q.id = pid ∧ q.model_id = mid then { q with order := idx } else q) = rest := by
          rw [List.map_congr_left (g := fun q => q), List.map_id']
          intro q hq
          have hqne : q.id ≠ pid := by
            intro he
            exact hpid ⟨q, hq, by rw [he, hc.1]⟩
          exact if_neg (fun h' => hqne h'.1)
        have hcb : (p.id == pid && p.model_id == mid) = true := by simp [hc.1, hc.2]
        simp only [setOrderFirst, hcb, if_true, List.map_cons, htail, if_pos hc]
      · have hcb : (p.id == pid && p.model_id == mid) = false := by
          rcases not_and_or.mp hc with h1 | h1 <;> simp [h1]
        simp only [setOrderFirst, hcb, Bool.false_eq_true, if_false, List.map_cons, if_neg hc]
        rw [ih hnd]

theorem reorder_foldl_eq_map (mid : Nat) :
    ∀ (ids : List Nat) (n : Nat) (ps : List Provider),
      ids.Nodup → (ps.map (fun p => p.id)).Nodup →
      (ids.enumFrom n).foldl
          (fun acc ip => setOrderFirst acc ip.2 mid (Int.ofNat ip.1)) ps
        = ps.map (fun p =>
            if p.model_id = mid ∧ p.id ∈ ids
            then { p with order := Int.ofNat (n + idxOf ids p.id) } else p) := by
  intro ids
  induction ids with
  | nil =>
      intro n ps _ _
      simp
  | cons x xs ih =>
      intro n ps hids hps
      simp only [List.nodup_cons] at hids
      obtain ⟨hx, hxs⟩ := hids
      have hstep : setOrderFirst ps x mid (Int.ofNat n)
          = ps.map (fun p =>
              if p.id = x ∧ p.model_id = mid then { p with order := Int.ofNat n } else p) :=
        setOrderFirst_eq_map ps x mid (Int.ofNat n) hps
      have hids1 : ((ps.map (fun p =>
          if p.id = x ∧ p.model_id = mid then { p with order := Int.ofNat n } else p)).map
            (fun p => p.id)).Nodup := by
        rw [List.map_map]
        have : ∀ p ∈ ps, ((fun p => p.id) ∘
            (fun p => if p.id = x ∧ p.model_id = mid
                      then { p with order := Int.ofNat n } else p)) p = p.id := by
          intro p _
          by_cases hc : p.id = x ∧ p.model_id = mid <;> simp [Function.comp, hc]
        rw [List.map_congr_left this]
        exact hps
      rw [List.enumFrom_cons, List.foldl_cons, hstep, ih (n + 1) _ hxs hids1, List.map_map]
      apply List.map_congr_left
      intro p _
      by_cases hc : p.id = x ∧ p.model_id = mid
      · have hnotxs : p.id ∉ xs := by rw [hc.1]; exact hx
        simp [Function.comp, hc, hc.1, hc.2, hnotxs, idxOf]
        exact fun hmem => absurd hmem hx
      · by_cases hm : p.model_id = mid
        · have hnx : p.id ≠ x := fun he => hc ⟨he, hm⟩
          by_cases hmem : p.id ∈ xs
          · have : n + 1 + idxOf xs p.id = n + (idxOf xs p.id + 1) := by omega
            simp [Function.comp, hc, hm, hmem, hnx, idxOf, Ne.symm hnx, this]
          · simp [Function.comp, hc, hm, hmem, hnx, Ne.symm hnx, idxOf]
        · simp [Function.comp, hc, hm]

/-- Claim C9: reordering with an explicit id list assigns every provider of
the target model whose id occurs in the list its zero-based position in the
list as the new `order`, leaves every other provider row unchanged, and
succeeds even when the list contains ids that match no provider of the
model. -/
theorem c9_reorder_assigns_list_indices
    (db : DB) (mid : Nat) (ids : List Nat) (m : Model)
    (hm : db.models.find? (fun x => x.id == mid) = some m)
    (hids : ids.Nodup)
    (hpids : (db.providers.map (fun p => p.id)).Nodup) :
    (reorder_providers db mid ids).status = .ok ∧
    (reorder_providers db mid ids).db.providers
      = db.providers.map (fun p =>
          if p.model_id = mid ∧ p.id ∈ ids
          then { p with order := Int.ofNat (idxOf ids p.id) } else p) := by
  have h := reorder_foldl_eq_map mid ids 0 db.providers hids hpids
  constructor
  · simp [reorder_providers, hm]
  · simp only [reorder_providers, hm, snapshot_version]
    rw [List.enum_eq_enumFrom, h]
    simp

/-- State for the C9 witness: model 1 with providers p1, p2, p3 (ids 1, 2,
3) in orders 1, 2, 3; the request lists them as `[3, 1, 2]` plus an unknown
id 99. -/
def dbReorder : DB :=
  { dbEmpty with
    configs := [⟨1, "cfg", false, 1, 1, ""⟩],
    models := [⟨1, 1, "google_models", "m"⟩],
    providers := [⟨1, 1, "p1", "h", "", "openai", 4096, "", 1, true, 1⟩,
                  ⟨2, 1, "p2", "h", "", "openai", 4096, "", 1, true, 2⟩,
                  ⟨3, 1, "p3", "h", "", "openai", 4096, "", 1, true, 3⟩],
    next_config_id := 2, next_model_id := 2, next_provider_id := 4 }

theorem c9_witness :
    (dbReorder.models.find? (fun x => x.id == 1) = some ⟨1, 1, "google_models", "m"⟩ ∧
     ([3, 1, 2, 99] : List Nat).Nodup ∧
     (dbReorder.providers.map (fun p => p.id)).Nodup) ∧
    ((reorder_providers dbReorder 1 [3, 1, 2, 99]).status = .ok ∧
     (reorder_providers dbReorder 1 [3, 1, 2, 99]).db.providers
       = dbReorder.providers.map (fun p =>
           if p.model_id = 1 ∧ p.id ∈ ([3, 1, 2, 99] : List Nat)
           then { p with order := Int.ofNat (idxOf [3, 1, 2, 99] p.id) } else p)) :=
  ⟨⟨rfl, by decide, by decide⟩,
   c9_reorder_assigns_list_indices dbReorder 1 [3, 1, 2, 99] ⟨1, 1, "google_models", "m"⟩
     rfl (by decide) (by decide)⟩

theorem importProvider_flags (mid rid : Nat) (j : JVal) (p : Provider)
    (h : importProvider mid rid j = some p) :
    p.id = rid ∧ p.model_id = mid ∧ p.enabled = true ∧ p.order = 0 := by
  simp [importProvider, Option.bind_eq_some] at h
  obtain ⟨kvs, -, pid, -, host, -, tok, -, typ, -, isize, -, mpath, -, w, -, hp⟩ := h
  subst hp
  exact ⟨rfl, rfl, rfl, rfl⟩

theorem importProvidersList_flags (mid : Nat) :
    ∀ (js : List JVal) (npid : Nat) (ps : List Provider) (npid' : Nat),
      importProvidersList mid npid js = some (ps, npid') →
      ∀ p ∈ ps, p.model_id = mid ∧ p.enabled = true ∧ p.order = 0 := by
  intro js
  induction js with
  | nil =>
      intro npid ps npid' h
      simp [importProvidersList] at h
      obtain ⟨h1, h2⟩ := h
      subst h1
      simp
  | cons j rest ih =>
      intro npid ps npid' h
      simp [importProvidersList, Option.bind_eq_some] at h
      obtain ⟨p0, hp0, ps1, hrest, hps⟩ := h
      subst hps
      intro q hq
      rcases List.mem_cons.mp hq with hq | hq
      · subst hq
        obtain ⟨-, h2, h3, h4⟩ := importProvider_flags mid npid j q hp0
        exact ⟨h2, h3, h4⟩
      · exact ih (npid + 1) ps1 npid' hrest q hq

theorem importFamList_props (cid : Nat) (fam : String) :
    ∀ (entries : List (String × JVal)) (nmid npid : Nat)
      (ms : List Model) (ps : List Provider) (nmid' npid' : Nat),
      importFamList cid fam nmid npid entries = some (ms, ps, nmid', npid') →
      nmid ≤ nmid' ∧
      (∀ m ∈ ms, nmid ≤ m.id ∧ m.config_id = cid) ∧
      (∀ p ∈ ps, p.enabled = true ∧ p.order = 0) := by
  intro entries
  induction entries with
  | nil =>
      intro nmid npid ms ps nmid' npid' h
      simp [importFamList] at h
      obtain ⟨h1, h2, h3, h4⟩ := h
      subst h1; subst h2; subst h3
      simp
  | cons e rest ih =>
      intro nmid npid ms ps nmid' npid' h
      obtain ⟨mname, mval⟩ := e
      simp [importFamList, Option.bind_eq_some] at h
      obtain ⟨kvs, -, js, -, ps1, npid1, hps1, ms2, ps2, nmid2, npid2, hrest,
        hms, hps, hn, hp2⟩ := h
      subst hms; subst hps; subst hn; subst hp2
      obtain ⟨hle, hmods, hprovs⟩ := ih _ _ _ _ _ _ hrest
      refine ⟨by omega, ?_, ?_⟩
      · intro m hm
        rcases List.mem_cons.mp hm with hm | hm
        · subst hm; exact ⟨Nat.le_refl _, rfl⟩
        · obtain ⟨h1, h2⟩ := hmods m hm
          exact ⟨by omega, h2⟩
      · intro p hp
        rcases List.mem_append.mp hp with hp | hp
        · obtain ⟨-, h2, h3⟩ := importProvidersList_flags nmid js npid ps1 npid1 hps1 p hp
          exact ⟨h2, h3⟩
        · exact hprovs p hp

theorem importFams_props (data : JVal) (cid : Nat) :
    ∀ (fams : List String) (nmid npid : Nat)
      (ms : List Model) (ps : List Provider) (nmid' npid' : Nat),
      importFams data cid nmid npid fams = some (ms, ps, nmid', npid') →
      (∀ m ∈ ms, nmid ≤ m.id ∧ m.config_id = cid) ∧
      (∀ p ∈ ps, p.enabled = true ∧ p.order = 0) := by
  intro fams
  induction fams with
  | nil =>
      intro nmid npid ms ps nmid' npid' h
      simp [importFams] at h
      obtain ⟨h1, h2, h3, h4⟩ := h
      subst h1; subst h2
      simp
  | cons fam rest ih =>
      intro nmid npid ms ps nmid' npid' h
      simp [importFams, Option.bind_eq_some] at h
      obtain ⟨famv, -, kvs, -, ms1, ps1, nmid1, npid1, hfam, ms2, ps2, nmid2, npid2,
        hrest, hms, hps, hn, hp⟩ := h
      subst hms; subst hps; subst hn; subst hp
      obtain ⟨hle1, hmods1, hprovs1⟩ := importFamList_props cid fam kvs nmid npid _ _ _ _ hfam
      obtain ⟨hmods2, hprovs2⟩ := ih _ _ _ _ _ _ hrest
      constructor
      · intro m hm
        rcases List.mem_append.mp hm with hm | hm
        · exact hmods1 m hm
        · obtain ⟨h1, h2⟩ := hmods2 m hm
          exact ⟨by omega, h2⟩
      · intro p hp
        rcases List.mem_append.mp hp with hp | hp
        · exact hprovs1 p hp
        · exact hprovs2 p hp

/-- Claim C10: whenever an import succeeds, every provider row linked to a
model of the newly created config has `enabled = true` (any `"enabled"`
field of the input was ignored) and the column-default `order = 0`. -/
theorem c10_import_providers_enabled_true_order_zero
    (db : DB) (uid : Nat) (name0 desc ts : String) (projId : Nat) (data : JVal) (db' : DB)
    (hfresh : Fresh db)
    (hok : import_config db uid name0 desc ts projId data = ⟨.ok, db'⟩) :
    ∀ p ∈ db'.providers,
      (∃ m ∈ db'.models, m.id = p.model_id ∧ m.config_id = db.next_config_id) →
      p.enabled = true ∧ p.order = 0 := by
  simp only [import_config] at hok
  split at hok
  · have := congrArg HResult.status hok
    simp at this
  · split at hok
    · have := congrArg HResult.status hok
      simp at this
    · rename_i db2 hbuild
      have hdb' : db' = snapshot_version db2 db.next_config_id "Import JSON" := by
        have := congrArg HResult.db hok
        simpa using this.symm
      subst hdb'
      simp [importBuild, Option.bind_eq_some] at hbuild
      obtain ⟨ms, ps, nmid', npid', hfams, acts, -, hdb2⟩ := hbuild
      obtain ⟨hms, hps⟩ := importFams_props data db.next_config_id families
        db.next_model_id db.next_provider_id ms ps nmid' npid' hfams
      intro p hp hm
      obtain ⟨m, hmmem, hmid, hmcfg⟩ := hm
      have hp' : p ∈ db.providers ++ ps := by
        rw [← hdb2] at hp
        simpa [snapshot_version] using hp
      have hm' : m ∈ db.models ++ ms := by
        rw [← hdb2] at hmmem
        simpa [snapshot_version] using hmmem
      rcases List.mem_append.mp hp' with hpo | hpn
      · exfalso
        rcases List.mem_append.mp hm' with hmo | hmn
        · exact absurd hmcfg (Nat.ne_of_lt (hfresh.2.1 m hmo).2)
        · have h1 : db.next_model_id ≤ m.id := (hms m hmn).1
          have h2 : p.model_id < db.next_model_id := (hfresh.2.2.1 p hpo).2
          omega
      · exact hps p hpn

/-- Import blob whose single provider explicitly says `"enabled": false`. -/
def importBlobEx : JVal :=
  .jobj [("google_models",
          .jobj [("m", .jobj [("providers",
            .jarr [.jobj [("id", .jstr "p"), ("api_host", .jstr "h"),
              ("api_token", .jstr ""), ("api_type", .jstr "vllm"),
              ("input_size", .jint 100), ("model_path", .jstr ""),
              ("weight", .jnum 2), ("enabled", .jbool false)]])])]),
         ("active_models", .jobj [("google_models", .jarr [.jstr "m"])])]

theorem c10_witness :
    Fresh dbEmpty ∧
    import_config dbEmpty 1 "n" "" "ts" 1 importBlobEx
      = ⟨.ok, (import_config dbEmpty 1 "n" "" "ts" 1 importBlobEx).db⟩ ∧
    ((import_config dbEmpty 1 "n" "" "ts" 1 importBlobEx).db.providers.map
        (fun p => (p.enabled, p.order))) = [(true, 0)] ∧
    (∀ p ∈ (import_config dbEmpty 1 "n" "" "ts" 1 importBlobEx).db.providers,
      (∃ m ∈ (import_config dbEmpty 1 "n" "" "ts" 1 importBlobEx).db.models,
          m.id = p.model_id ∧ m.config_id = dbEmpty.next_config_id) →
      p.enabled = true ∧ p.order = 0) :=
  ⟨by decide, by rfl, by rfl,
   c10_import_providers_enabled_true_order_zero dbEmpty 1 "n" "" "ts" 1 importBlobEx _
     (by decide) (by rfl)⟩

/-! ## C6: the serialized view -/

theorem dictInsert_fresh (acc : List (String × JVal)) (k : String) (v : JVal)
    (h : ∀ kv ∈ acc, kv.1 ≠ k) : dictInsert acc k v = acc ++ [(k, v)] := by
  induction acc with
  | nil => rfl
  | cons kv rest ih =>
      have hk : (kv.1 == k) = false := by
        simpa using h kv (List.mem_cons_self kv rest)
      simp only [dictInsert, hk, Bool.false_eq_true, if_false, List.cons_append,
        List.cons.injEq, true_and]
      exact ih (fun kv' h' => h kv' (List.mem_cons_of_mem _ h'))

theorem foldl_dictInsert_eq_map (F : Model → JVal) :
    ∀ (ms : List Model) (acc : List (String × JVal)),
      ((ms.map (fun m => m.name)).Nodup) →
      (∀ m ∈ ms, ∀ kv ∈ acc, kv.1 ≠ m.name) →
      ms.foldl (fun a m => dictInsert a m.name (F m)) acc
        = acc ++ ms.map (fun m => (m.name, F m)) := by
  intro ms
  induction ms with
  | nil =>
      intro acc _ _
      simp
  | cons m rest ih =>
      intro acc hnd hdisj
      simp only [List.map_cons, List.nodup_cons] at hnd
      obtain ⟨hm, hnd⟩ := hnd
      rw [List.foldl_cons,
        dictInsert_fresh acc m.name (F m) (fun kv hkv => hdisj m (by simp) kv hkv),
        ih (acc ++ [(m.name, F m)]) hnd ?_]
      · simp
      · intro m' hm' kv hkv
        rcases List.mem_append.mp hkv with hkv | hkv
        · exact hdisj m' (by simp [hm']) kv hkv
        · simp only [List.mem_singleton] at hkv
          rw [hkv]
          intro he
          have : m.name = m'.name := he
          exact hm (this ▸ List.mem_map_of_mem (fun x => x.name) hm')

/-- With distinct model names, the `out[fam]` dict is just the in-order
association list of model entries. -/
theorem famEntry_eq_map (db : DB) (cid : Nat) (fam : String)
    (h : ((modelsFam db cid fam).map (fun m => m.name)).Nodup) :
    famEntry db cid fam = (modelsFam db cid fam).map
      (fun m => (m.name, JVal.jobj [("providers",
         .jarr (((provsOf db m.id).filter (fun p => p.enabled)).map serializeProvider))])) := by
  unfold famEntry
  rw [foldl_dictInsert_eq_map _ _ [] h (by simp)]
  simp

theorem find?_assoc_of_nodup (F : Model → JVal) :
    ∀ (ms : List Model) (m : Model),
      ((ms.map (fun x => x.name)).Nodup) → m ∈ ms →
      (ms.map (fun x => (x.name, F x))).find? (fun kv => kv.1 == m.name)
        = some (m.name, F m) := by
  intro ms
  induction ms with
  | nil =>
      intro m _ hm
      cases hm
  | cons x rest ih =>
      intro m hnd hm
      simp only [List.map_cons, List.nodup_cons] at hnd
      obtain ⟨hx, hnd⟩ := hnd
      rcases List.mem_cons.mp hm with rfl | hm
      · rw [List.map_cons, List.find?_cons_of_pos _ (by simp)]
      · have hne : m.name ≠ x.name := by
          intro he
          exact hx (he ▸ List.mem_map_of_mem _ hm)
        rw [List.map_cons, List.find?_cons_of_neg _ (by simpa using Ne.symm hne)]
        exact ih m hnd hm

/-- Whether a serialized provider object carries a `weight` key. -/
def hasWeightKey (j : JVal) : Bool :=
  match j with
  | .jobj kvs => (kvs.find? (fun kv => kv.1 == "weight")).isSome
  | _ => false

/-- Claim C6: in the serialized view (`to_json`, used by snapshot and
export), the providers array of each model consists of exactly its enabled
providers (in `order`-sorted sequence) — disabled providers are omitted —
and a serialized provider object carries the `weight` key iff its
`api_type` is `"vllm"` or its weight differs from the default 1.0. -/
theorem c6_serialized_view_enabled_only_weight_iff
    (db : DB) (cid : Nat) (fam : String) (m : Model)
    (hfam : fam ∈ families)
    (hm : m ∈ db.models) (hmc : m.config_id = cid) (hmf : m.family = fam)
    (hnames : ((modelsFam db cid fam).map (fun x => x.name)).Nodup) :
    blobProviders (to_json db cid) fam m.name
      = some (((provsOf db m.id).filter (fun p => p.enabled)).map serializeProvider) ∧
    (∀ q : Provider, hasWeightKey (serializeProvider q) = true
        ↔ (q.api_type = "vllm" ∨ q.weight ≠ 1)) := by
  constructor
  · have hmem : m ∈ modelsFam db cid fam := by
      simp [modelsFam, List.mem_filter, hm, hmc, hmf]
    have hfind := find?_assoc_of_nodup
      (fun x => JVal.jobj [("providers",
        .jarr (((provsOf db x.id).filter (fun p => p.enabled)).map serializeProvider))])
      (modelsFam db cid fam) m hnames hmem
    have hfe := famEntry_eq_map db cid fam hnames
    simp only [families, List.mem_cons, List.not_mem_nil, or_false] at hfam
    rcases hfam with rfl | rfl | rfl <;>
      simp [blobProviders, to_json, objGet, hfe, hfind, asList]
  · intro q
    by_cases hc : q.api_type = "vllm" ∨ q.weight ≠ 1 <;>
      simp [serializeProvider, hasWeightKey, hc]

theorem c6_witness :
    (("google_models" : String) ∈ families ∧
     (⟨1, 1, "google_models", "m"⟩ : Model) ∈ seedDb.models ∧
     (Model.config_id ⟨1, 1, "google_models", "m"⟩) = 1 ∧
     (Model.family ⟨1, 1, "google_models", "m"⟩) = "google_models" ∧
     ((modelsFam seedDb 1 "google_models").map (fun x => x.name)).Nodup) ∧
    (blobProviders (to_json seedDb 1) "google_models" "m"
      = some (((provsOf seedDb 1).filter (fun p => p.enabled)).map serializeProvider) ∧
     (∀ q : Provider, hasWeightKey (serializeProvider q) = true
        ↔ (q.api_type = "vllm" ∨ q.weight ≠ 1))) :=
  ⟨⟨by decide, by decide, rfl, rfl, by decide⟩,
   c6_serialized_view_enabled_only_weight_iff seedDb 1 "google_models"
     ⟨1, 1, "google_models", "m"⟩ (by decide) (by decide) rfl rfl (by decide)⟩

/-! ## C4/C5: round-trip machinery.

The rebuild loops of restore and import, run on a canonical blob
`encodeBlob D` with truthy provider fields, produce exactly the rows
described below (`mkProvRow`/`mkBlock`/`mkFamModels`/`mkFamProvs`), and
serializing those rows reproduces the blob. -/

/-- The provider row reconstructed from a description (`enabled = true` in
both rebuild flavours for canonical blobs; `ord` is 0 for import, the
enumeration index for restore). -/
def mkProvRow (mid rid : Nat) (ord : Int) (d : PDesc) : Provider :=
  ⟨rid, mid, d.pid, d.api_host, d.api_token, d.api_type, d.input_size,
   d.model_path, d.weight, true, ord⟩

/-- One model's reconstructed provider rows; `f` maps the enumeration index
to the stored `order` (`Int.ofNat` for restore, constant 0 for import). -/
def mkBlock (mid : Nat) (f : Nat → Int) : Nat → Nat → List PDesc → List Provider
  | _, _, [] => []
  | rid, idx, d :: ds => mkProvRow mid rid (f idx) d :: mkBlock mid f (rid + 1) (idx + 1) ds

/-- Reconstructed model rows of one family. -/
def mkFamModels (cid : Nat) (fam : String) : Nat → List (String × List PDesc) → List Model
  | _, [] => []
  | nmid, e :: rest => ⟨nmid, cid, fam, e.1⟩ :: mkFamModels cid fam (nmid + 1) rest

/-- Number of provider entries in one family description. -/
def famProvCount (es : List (String × List PDesc)) : Nat :=
  (es.map (fun e => e.2.length)).sum

/-- Reconstructed provider rows of one family, in insertion order. -/
def mkFamProvs (f : Nat → Int) : Nat → Nat → List (String × List PDesc) → List Provider
  | _, _, [] => []
  | nmid, npid, e :: rest =>
      mkBlock nmid f npid 0 e.2 ++ mkFamProvs f (nmid + 1) (npid + e.2.length) rest

/-- All reconstructed model rows, families in code order. -/
def mkAllModels (cid nmid : Nat) (D : BlobDesc) : List Model :=
  mkFamModels cid "google_models" nmid D.gm
  ++ mkFamModels cid "openai_models" (nmid + D.gm.length) D.om
  ++ mkFamModels cid "qwen_models" (nmid + D.gm.length + D.om.length) D.qm

/-- All reconstructed provider rows, families in code order. -/
def mkAllProvs (f : Nat → Int) (nmid npid : Nat) (D : BlobDesc) : List Provider :=
  mkFamProvs f nmid npid D.gm
  ++ mkFamProvs f (nmid + D.gm.length) (npid + famProvCount D.gm) D.om
  ++ mkFamProvs f (nmid + D.gm.length + D.om.length)
       (npid + famProvCount D.gm + famProvCount D.om) D.qm

/-- Reconstructed active-model rows. -/
def mkActs (cid : Nat) (D : BlobDesc) : List ActiveModel :=
  D.ag.map (fun n => (⟨cid, "google_models", n⟩ : ActiveModel))
  ++ D.ao.map (fun n => (⟨cid, "openai_models", n⟩ : ActiveModel))
  ++ D.aq.map (fun n => (⟨cid, "qwen_models", n⟩ : ActiveModel))

theorem importProvider_encode (mid rid : Nat) (d : PDesc)
    (hz : d.input_size ≠ 0) (hw : d.weight ≠ 0) :
    importProvider mid rid (encodePDesc d) = some (mkProvRow mid rid 0 d) := by
  by_cases hc : d.api_type = "vllm" ∨ d.weight ≠ 1
  · simp [importProvider, encodePDesc, hc, getStrField, coerceIntOr, coerceRatOr,
      asObj, asStr, dGet, pyOr, pyInt, pyFloat, JVal.truthy, hz, hw, mkProvRow]
  · push_neg at hc
    obtain ⟨hta, hw1⟩ := hc
    simp [importProvider, encodePDesc, hta, getStrField, coerceIntOr, coerceRatOr,
      asObj, asStr, dGet, pyOr, pyInt, pyFloat, JVal.truthy, hz, hw, mkProvRow, hw1]

theorem restoreProvider_encode (mid rid idx : Nat) (d : PDesc)
    (hz : d.input_size ≠ 0) (hw : d.weight ≠ 0) :
    restoreProvider mid rid idx (encodePDesc d)
      = some (mkProvRow mid rid (Int.ofNat idx) d) := by
  by_cases hc : d.api_type = "vllm" ∨ d.weight ≠ 1
  · simp [restoreProvider, encodePDesc, hc, getStrField, coerceIntOr, coerceRatOr,
      asObj, asStr, dGet, pyOr, pyInt, pyFloat, JVal.truthy, hz, hw, mkProvRow]
  · push_neg at hc
    obtain ⟨hta, hw1⟩ := hc
    simp [restoreProvider, encodePDesc, hta, getStrField, coerceIntOr, coerceRatOr,
      asObj, asStr, dGet, pyOr, pyInt, pyFloat, JVal.truthy, hz, hw, mkProvRow, hw1]

theorem serializeProvider_mkRow (mid rid : Nat) (ord : Int) (d : PDesc) :
    serializeProvider (mkProvRow mid rid ord d) = encodePDesc d := by
  by_cases hc : d.api_type = "vllm" ∨ d.weight ≠ 1 <;>
    simp [serializeProvider, mkProvRow, encodePDesc, hc]

theorem asObj_pyOr_encodeFam (es : List (String × List PDesc)) :
    asObj (pyOr (encodeFam es) (.jobj [])) = some (encodeEntries es) := by
  cases es <;> simp [encodeFam, encodeEntries, pyOr, JVal.truthy, asObj]

theorem asList_pyOr_jarr (xs : List JVal) :
    asList (pyOr (.jarr xs) (.jarr [])) = some xs := by
  cases xs <;> simp [pyOr, JVal.truthy, asList]

theorem mapM_loop_asStr :
    ∀ (l : List String) (acc : List String),
      List.mapM.loop asStr (l.map JVal.jstr) acc = some (acc.reverse ++ l) := by
  intro l
  induction l with
  | nil =>
      intro acc
      simp [List.mapM.loop]
  | cons s rest ih =>
      intro acc
      simp [List.mapM.loop, asStr, ih (s :: acc)]

theorem mapM_asStr (l : List String) : (l.map JVal.jstr).mapM asStr = some l := by
  simpa using mapM_loop_asStr l []

theorem restoreProvidersList_encode (mid : Nat) :
    ∀ (ds : List PDesc) (rid idx : Nat),
      (∀ d ∈ ds, d.input_size ≠ 0 ∧ d.weight ≠ 0) →
      restoreProvidersList mid rid idx (ds.map encodePDesc)
        = some (mkBlock mid Int.ofNat rid idx ds, rid + ds.length) := by
  intro ds
  induction ds with
  | nil =>
      intro rid idx _
      simp [restoreProvidersList, mkBlock]
  | cons d rest ih =>
      intro rid idx h
      have hd := h d (List.mem_cons_self d rest)
      simp [restoreProvidersList, restoreProvider_encode mid rid idx d hd.1 hd.2,
        ih (rid + 1) (idx + 1) (fun x hx => h x (List.mem_cons_of_mem d hx)), mkBlock]
      omega

theorem restoreFamList_encode (cid : Nat) (fam : String) :
    ∀ (es : List (String × List PDesc)) (nmid npid : Nat),
      (∀ e ∈ es, GoodEntry e) →
      restoreFamList cid fam nmid npid (encodeEntries es)
        = some (mkFamModels cid fam nmid es, mkFamProvs Int.ofNat nmid npid es,
                nmid + es.length, npid + famProvCount es) := by
  intro es
  induction es with
  | nil =>
      intro nmid npid _
      simp [encodeEntries, restoreFamList, mkFamModels, mkFamProvs, famProvCount]
  | cons e rest ih =>
      intro nmid npid h
      have he := h e (List.mem_cons_self e rest)
      have ih' := ih (nmid + 1) (npid + e.2.length)
        (fun x hx => h x (List.mem_cons_of_mem e hx))
      simp only [encodeEntries] at ih'
      simp [encodeEntries, restoreFamList, asObj, dGet, asList,
        restoreProvidersList_encode nmid e.2 npid 0 he, ih',
        mkFamModels, mkFamProvs, famProvCount]
      omega

theorem restoreFams_encode (cid : Nat) (D : BlobDesc) (nmid npid : Nat)
    (hg : GoodBlobDesc D) :
    restoreFams (encodeBlob D) cid nmid npid families
      = some (mkAllModels cid nmid D, mkAllProvs Int.ofNat nmid npid D,
              nmid + D.gm.length + D.om.length + D.qm.length,
              npid + famProvCount D.gm + famProvCount D.om + famProvCount D.qm) := by
  obtain ⟨⟨h1n, h1e⟩, ⟨h2n, h2e⟩, ⟨h3n, h3e⟩⟩ := hg
  simp [families, restoreFams, encodeBlob, JVal.pyGet, JVal.pyGetD, dGet,
    asObj_pyOr_encodeFam, restoreFamList_encode _ _ _ _ _ h1e,
    restoreFamList_encode _ _ _ _ _ h2e, restoreFamList_encode _ _ _ _ _ h3e,
    mkAllModels, mkAllProvs]

theorem restoreActives_encode (cid : Nat) (D : BlobDesc) :
    restoreActives (encodeBlob D) cid families = some (mkActs cid D) := by
  simp [families, restoreActives, encodeBlob, JVal.pyGet, JVal.pyGetD, dGet,
    asList_pyOr_jarr, mapM_loop_asStr, mkActs]

theorem restoreBuild_encode (cid : Nat) (D : BlobDesc) (db1 : DB)
    (hg : GoodBlobDesc D) :
    restoreBuild (encodeBlob D) cid db1 = some
      { db1 with
        models := db1.models ++ mkAllModels cid db1.next_model_id D,
        providers := db1.providers
          ++ mkAllProvs Int.ofNat db1.next_model_id db1.next_provider_id D,
        actives := db1.actives ++ mkActs cid D,
        next_model_id := db1.next_model_id + D.gm.length + D.om.length + D.qm.length,
        next_provider_id := db1.next_provider_id + famProvCount D.gm
          + famProvCount D.om + famProvCount D.qm } := by
  simp [restoreBuild, restoreFams_encode cid D _ _ hg, restoreActives_encode]

theorem importProvidersList_encode (mid : Nat) :
    ∀ (ds : List PDesc) (rid idx : Nat),
      (∀ d ∈ ds, d.input_size ≠ 0 ∧ d.weight ≠ 0) →
      importProvidersList mid rid (ds.map encodePDesc)
        = some (mkBlock mid (fun _ => 0) rid idx ds, rid + ds.length) := by
  intro ds
  induction ds with
  | nil =>
      intro rid idx _
      simp [importProvidersList, mkBlock]
  | cons d rest ih =>
      intro rid idx h
      have hd := h d (List.mem_cons_self d rest)
      simp [importProvidersList, importProvider_encode mid rid d hd.1 hd.2,
        ih (rid + 1) (idx + 1) (fun x hx => h x (List.mem_cons_of_mem d hx)), mkBlock]
      omega

theorem importFamList_encode (cid : Nat) (fam : String) :
    ∀ (es : List (String × List PDesc)) (nmid npid : Nat),
      (∀ e ∈ es, GoodEntry e) →
      importFamList cid fam nmid npid (encodeEntries es)
        = some (mkFamModels cid fam nmid es, mkFamProvs (fun _ => 0) nmid npid es,
                nmid + es.length, npid + famProvCount es) := by
  intro es
  induction es with
  | nil =>
      intro nmid npid _
      simp [encodeEntries, importFamList, mkFamModels, mkFamProvs, famProvCount]
  | cons e rest ih =>
      intro nmid npid h
      have he := h e (List.mem_cons_self e rest)
      have ih' := ih (nmid + 1) (npid + e.2.length)
        (fun x hx => h x (List.mem_cons_of_mem e hx))
      simp only [encodeEntries] at ih'
      simp [encodeEntries, importFamList, asObj, dGet, asList,
        importProvidersList_encode nmid e.2 npid 0 he, ih',
        mkFamModels, mkFamProvs, famProvCount]
      omega

theorem importFams_encode (cid : Nat) (D : BlobDesc) (nmid npid : Nat)
    (hg : GoodBlobDesc D) :
    importFams (encodeBlob D) cid nmid npid families
      = some (mkAllModels cid nmid D, mkAllProvs (fun _ => 0) nmid npid D,
              nmid + D.gm.length + D.om.length + D.qm.length,
              npid + famProvCount D.gm + famProvCount D.om + famProvCount D.qm) := by
  obtain ⟨⟨h1n, h1e⟩, ⟨h2n, h2e⟩, ⟨h3n, h3e⟩⟩ := hg
  simp [families, importFams, encodeBlob, JVal.pyGet, JVal.pyGetD, dGet,
    asObj_pyOr_encodeFam, importFamList_encode _ _ _ _ _ h1e,
    importFamList_encode _ _ _ _ _ h2e, importFamList_encode _ _ _ _ _ h3e,
    mkAllModels, mkAllProvs]

theorem importActives_encode (cid : Nat) (D : BlobDesc) :
    importActives (encodeBlob D) cid families = some (mkActs cid D) := by
  simp [families, importActives, encodeBlob, JVal.pyGet, JVal.pyGetD, dGet, pyOr,
    JVal.truthy, asList, mapM_loop_asStr, mkActs]

theorem importBuild_encode (cid : Nat) (D : BlobDesc) (db0 : DB)
    (hg : GoodBlobDesc D) :
    importBuild (encodeBlob D) cid db0 = some
      { db0 with
        models := db0.models ++ mkAllModels cid db0.next_model_id D,
        providers := db0.providers
          ++ mkAllProvs (fun _ => 0) db0.next_model_id db0.next_provider_id D,
        actives := db0.actives ++ mkActs cid D,
        next_model_id := db0.next_model_id + D.gm.length + D.om.length + D.qm.length,
        next_provider_id := db0.next_provider_id + famProvCount D.gm
          + famProvCount D.om + famProvCount D.qm } := by
  simp [importBuild, importFams_encode cid D _ _ hg, importActives_encode]

theorem mkBlock_model_id (mid : Nat) (f : Nat → Int) :
    ∀ (ds : List PDesc) (rid idx : Nat), ∀ p ∈ mkBlock mid f rid idx ds,
      p.model_id = mid := by
  intro ds
  induction ds with
  | nil =>
      intro rid idx p hp
      cases hp
  | cons d rest ih =>
      intro rid idx p hp
      rcases List.mem_cons.mp hp with rfl | hp
      · rfl
      · exact ih (rid + 1) (idx + 1) p hp

theorem mkBlock_enabled (mid : Nat) (f : Nat → Int) :
    ∀ (ds : List PDesc) (rid idx : Nat), ∀ p ∈ mkBlock mid f rid idx ds,
      p.enabled = true := by
  intro ds
  induction ds with
  | nil =>
      intro rid idx p hp
      cases hp
  | cons d rest ih =>
      intro rid idx p hp
      rcases List.mem_cons.mp hp with rfl | hp
      · rfl
      · exact ih (rid + 1) (idx + 1) p hp

theorem mkBlock_order_lb (mid : Nat) (f : Nat → Int)
    (hf : ∀ i j, i ≤ j → f i ≤ f j) :
    ∀ (ds : List PDesc) (rid idx : Nat), ∀ p ∈ mkBlock mid f rid idx ds,
      f idx ≤ p.order := by
  intro ds
  induction ds with
  | nil =>
      intro rid idx p hp
      cases hp
  | cons d rest ih =>
      intro rid idx p hp
      rcases List.mem_cons.mp hp with rfl | hp
      · exact le_refl _
      · exact le_trans (hf idx (idx + 1) (by omega)) (ih (rid + 1) (idx + 1) p hp)

theorem mkBlock_pairwise (mid : Nat) (f : Nat → Int)
    (hf : ∀ i j, i ≤ j → f i ≤ f j) :
    ∀ (ds : List PDesc) (rid idx : Nat),
      List.Pairwise (fun a b : Provider => a.order ≤ b.order)
        (mkBlock mid f rid idx ds) := by
  intro ds
  induction ds with
  | nil =>
      intro rid idx
      exact List.Pairwise.nil
  | cons d rest ih =>
      intro rid idx
      refine List.Pairwise.cons ?_ (ih (rid + 1) (idx + 1))
      intro p hp
      exact le_trans (hf idx (idx + 1) (by omega)) (mkBlock_order_lb mid f hf rest _ _ p hp)

theorem mkBlock_serialize (mid : Nat) (f : Nat → Int) :
    ∀ (ds : List PDesc) (rid idx : Nat),
      ((mkBlock mid f rid idx ds).filter (fun p => p.enabled)).map serializeProvider
        = ds.map encodePDesc := by
  intro ds
  induction ds with
  | nil =>
      intro rid idx
      rfl
  | cons d rest ih =>
      intro rid idx
      simp [mkBlock, mkProvRow, List.filter_cons, serializeProvider_mkRow, ih]
      rfl

theorem mkFamModels_names (cid : Nat) (fam : String) :
    ∀ (es : List (String × List PDesc)) (nmid : Nat),
      (mkFamModels cid fam nmid es).map (fun m => m.name) = es.map Prod.fst := by
  intro es
  induction es with
  | nil => intro nmid; rfl
  | cons e rest ih =>
      intro nmid
      simp [mkFamModels, ih]

theorem mkFamModels_mem (cid : Nat) (fam : String) :
    ∀ (es : List (String × List PDesc)) (nmid : Nat), ∀ m ∈ mkFamModels cid fam nmid es,
      nmid ≤ m.id ∧ m.id < nmid + es.length ∧ m.config_id = cid ∧ m.family = fam := by
  intro es
  induction es with
  | nil =>
      intro nmid m hm
      cases hm
  | cons e rest ih =>
      intro nmid m hm
      rcases List.mem_cons.mp hm with rfl | hm
      · refine ⟨le_refl _, ?_, rfl, rfl⟩
        simp only [List.length_cons]
        omega
      · obtain ⟨h1, h2, h3, h4⟩ := ih (nmid + 1) m hm
        refine ⟨by omega, ?_, h3, h4⟩
        simp only [List.length_cons]
        omega

theorem mkFamProvs_model_id_bounds (f : Nat → Int) :
    ∀ (es : List (String × List PDesc)) (nmid npid : Nat),
      ∀ p ∈ mkFamProvs f nmid npid es,
        nmid ≤ p.model_id ∧ p.model_id < nmid + es.length := by
  intro es
  induction es with
  | nil =>
      intro nmid npid p hp
      cases hp
  | cons e rest ih =>
      intro nmid npid p hp
      rcases List.mem_append.mp hp with hp | hp
      · have := mkBlock_model_id nmid f e.2 npid 0 p hp
        simp only [List.length_cons]
        omega
      · obtain ⟨h1, h2⟩ := ih (nmid + 1) (npid + e.2.length) p hp
        simp only [List.length_cons]
        omega

theorem insOrd_append (p : Provider) :
    ∀ (l : List Provider), (∀ q ∈ l, ¬ p.order < q.order) → insOrd p l = l ++ [p] := by
  intro l
  induction l with
  | nil => intro _; rfl
  | cons q rest ih =>
      intro h
      have hq : ¬ p.order < q.order := h q (List.mem_cons_self q rest)
      simp only [insOrd, if_neg hq, List.cons_append, List.cons.injEq, true_and]
      exact ih (fun r hr => h r (List.mem_cons_of_mem q hr))

theorem sortByOrder_aux :
    ∀ (l acc : List Provider),
      (∀ p ∈ l, ∀ q ∈ acc, q.order ≤ p.order) →
      List.Pairwise (fun a b : Provider => a.order ≤ b.order) l →
      l.foldl (fun acc p => insOrd p acc) acc = acc ++ l := by
  intro l
  induction l with
  | nil =>
      intro acc _ _
      simp
  | cons p rest ih =>
      intro acc hge hpw
      rw [List.foldl_cons,
        insOrd_append p acc (fun q hq =>
          not_lt.mpr (hge p (List.mem_cons_self p rest) q hq))]
      rw [ih (acc ++ [p]) ?_ (List.Pairwise.sublist (List.sublist_cons_self p rest) hpw)]
      · simp
      · intro x hx q hq
        rcases List.mem_append.mp hq with hq | hq
        · exact hge x (List.mem_cons_of_mem p hx) q hq
        · rw [List.mem_singleton.mp hq]
          exact (List.pairwise_cons.mp hpw).1 x hx

theorem sortByOrder_eq_self (l : List Provider)
    (h : List.Pairwise (fun a b : Provider => a.order ≤ b.order) l) :
    sortByOrder l = l := by
  unfold sortByOrder
  rw [sortByOrder_aux l [] (by simp) h]
  rfl

theorem filter_modelid_nil (l : List Provider) (i : Nat)
    (h : ∀ p ∈ l, p.model_id ≠ i) : l.filter (fun p => p.model_id == i) = [] :=
  List.filter_eq_nil_iff.mpr (fun p hp => by simpa using h p hp)

theorem filter_modelid_self (l : List Provider) (i : Nat)
    (h : ∀ p ∈ l, p.model_id = i) : l.filter (fun p => p.model_id == i) = l :=
  List.filter_eq_self.mpr (fun p hp => by simpa using h p hp)

/-- Serializing the rebuilt models of one family reproduces the family's
association list, provided the rebuilt provider rows sit between `pre`
(smaller model ids) and `post` (larger model ids) in the provider table. -/
theorem famSer (db2 : DB) (cid : Nat) (fam : String) (f : Nat → Int)
    (hf : ∀ i j, i ≤ j → f i ≤ f j) :
    ∀ (es : List (String × List PDesc)) (nmid npid : Nat)
      (pre post : List Provider),
      db2.providers = pre ++ mkFamProvs f nmid npid es ++ post →
      (∀ p ∈ pre, p.model_id < nmid) →
      (∀ p ∈ post, nmid + es.length ≤ p.model_id) →
      (mkFamModels cid fam nmid es).map
        (fun m => (m.name, JVal.jobj [("providers",
           .jarr (((provsOf db2 m.id).filter (fun p => p.enabled)).map serializeProvider))]))
        = encodeEntries es := by
  intro es
  induction es with
  | nil =>
      intro nmid npid pre post _ _ _
      rfl
  | cons e rest ih =>
      intro nmid npid pre post hdb hpre hpost
      have hdb' : db2.providers
          = pre ++ (mkBlock nmid f npid 0 e.2
              ++ (mkFamProvs f (nmid + 1) (npid + e.2.length) rest ++ post)) := by
        simpa [mkFamProvs, List.append_assoc] using hdb
      have hprovs : provsOf db2 nmid = mkBlock nmid f npid 0 e.2 := by
        unfold provsOf
        rw [hdb']
        rw [List.filter_append, List.filter_append, List.filter_append]
        rw [filter_modelid_nil pre nmid (fun p hp => Nat.ne_of_lt (hpre p hp)),
          filter_modelid_self _ nmid (fun p hp => mkBlock_model_id nmid f e.2 npid 0 p hp),
          filter_modelid_nil _ nmid (fun p hp => by
            have := (mkFamProvs_model_id_bounds f rest (nmid + 1) (npid + e.2.length) p hp).1
            omega),
          filter_modelid_nil post nmid (fun p hp => by
            have := hpost p hp
            simp only [List.length_cons] at this
            omega)]
        simp only [List.append_nil, List.nil_append]
        exact sortByOrder_eq_self _ (mkBlock_pairwise nmid f hf e.2 npid 0)
      simp only [mkFamModels, List.map_cons]
      congr 1
      · simp only [hprovs, mkBlock_serialize nmid f e.2 npid 0, encodeEntries]
      · have hih := ih (nmid + 1) (npid + e.2.length) (pre ++ mkBlock nmid f npid 0 e.2) post
          (by simpa [mkFamProvs, List.append_assoc] using hdb)
          (fun p hp => by
            rcases List.mem_append.mp hp with hp | hp
            · exact Nat.lt_succ_of_lt (hpre p hp)
            · rw [mkBlock_model_id nmid f e.2 npid 0 p hp]
              omega)
          (fun p hp => by
            have := hpost p hp
            simp only [List.length_cons] at this
            omega)
        simpa [encodeEntries] using hih

theorem filter_mkFamModels_same (cid : Nat) (fam : String) :
    ∀ (es : List (String × List PDesc)) (nmid : Nat),
      (mkFamModels cid fam nmid es).filter
          (fun m => m.config_id == cid && m.family == fam)
        = mkFamModels cid fam nmid es := by
  intro es nmid
  apply List.filter_eq_self.mpr
  intro m hm
  obtain ⟨-, -, h3, h4⟩ := mkFamModels_mem cid fam es nmid m hm
  simp [h3, h4]

theorem filter_mkFamModels_other (cid : Nat) (fam' fam : String) (hne : fam' ≠ fam) :
    ∀ (es : List (String × List PDesc)) (nmid : Nat),
      (mkFamModels cid fam' nmid es).filter
          (fun m => m.config_id == cid && m.family == fam) = [] := by
  intro es nmid
  apply List.filter_eq_nil_iff.mpr
  intro m hm
  obtain ⟨-, -, h3, h4⟩ := mkFamModels_mem cid fam' es nmid m hm
  simp [h3, h4, hne]

theorem modelsFam_rebuilt (db2 : DB) (cid : Nat) (oldM : List Model)
    (nmid : Nat) (D : BlobDesc)
    (hdb : db2.models = oldM ++ mkAllModels cid nmid D)
    (holdM : ∀ m ∈ oldM, m.config_id ≠ cid) :
    modelsFam db2 cid "google_models" = mkFamModels cid "google_models" nmid D.gm ∧
    modelsFam db2 cid "openai_models"
      = mkFamModels cid "openai_models" (nmid + D.gm.length) D.om ∧
    modelsFam db2 cid "qwen_models"
      = mkFamModels cid "qwen_models" (nmid + D.gm.length + D.om.length) D.qm := by
  have hold : ∀ fam, oldM.filter (fun m => m.config_id == cid && m.family == fam) = [] := by
    intro fam
    apply List.filter_eq_nil_iff.mpr
    intro m hm
    simp [holdM m hm]
  refine ⟨?_, ?_, ?_⟩ <;>
    simp [modelsFam, hdb, mkAllModels, List.filter_append, hold,
      filter_mkFamModels_same,
      filter_mkFamModels_other cid "google_models" "openai_models" (by decide),
      filter_mkFamModels_other cid "google_models" "qwen_models" (by decide),
      filter_mkFamModels_other cid "openai_models" "google_models" (by decide),
      filter_mkFamModels_other cid "openai_models" "qwen_models" (by decide),
      filter_mkFamModels_other cid "qwen_models" "google_models" (by decide),
      filter_mkFamModels_other cid "qwen_models" "openai_models" (by decide)]

theorem activeNames_rebuilt (db2 : DB) (cid : Nat) (oldA : List ActiveModel)
    (D : BlobDesc)
    (hdb : db2.actives = oldA ++ mkActs cid D)
    (holdA : ∀ a ∈ oldA, a.config_id ≠ cid) :
    activeNames db2 cid "google_models" = D.ag ∧
    activeNames db2 cid "openai_models" = D.ao ∧
    activeNames db2 cid "qwen_models" = D.aq := by
  have hold : oldA.filter (fun a => a.config_id == cid) = [] := by
    apply List.filter_eq_nil_iff.mpr
    intro a ha
    simp [holdA a ha]
  refine ⟨?_, ?_, ?_⟩ <;>
    (simp [activeNames, hdb, mkActs, List.filter_append, hold, List.filter_map,
      Function.comp]
     exact List.map_id' _)

/-- Serializing the state produced by either rebuild flavour reproduces the
canonical blob. -/
theorem to_json_rebuilt (db2 : DB) (cid : Nat) (D : BlobDesc) (f : Nat → Int)
    (hf : ∀ i j, i ≤ j → f i ≤ f j)
    (oldM : List Model) (oldP : List Provider) (oldA : List ActiveModel)
    (nmid npid : Nat)
    (hdbM : db2.models = oldM ++ mkAllModels cid nmid D)
    (hdbP : db2.providers = oldP ++ mkAllProvs f nmid npid D)
    (hdbA : db2.actives = oldA ++ mkActs cid D)
    (holdM : ∀ m ∈ oldM, m.config_id ≠ cid)
    (holdP : ∀ p ∈ oldP, p.model_id < nmid)
    (holdA : ∀ a ∈ oldA, a.config_id ≠ cid)
    (hn1 : (D.gm.map Prod.fst).Nodup) (hn2 : (D.om.map Prod.fst).Nodup)
    (hn3 : (D.qm.map Prod.fst).Nodup) :
    to_json db2 cid = encodeBlob D := by
  obtain ⟨hmg, hmo, hmq⟩ := modelsFam_rebuilt db2 cid oldM nmid D hdbM holdM
  obtain ⟨hag, hao, haq⟩ := activeNames_rebuilt db2 cid oldA D hdbA holdA
  have hserG := famSer db2 cid "google_models" f hf D.gm nmid npid oldP
    (mkFamProvs f (nmid + D.gm.length) (npid + famProvCount D.gm) D.om
      ++ mkFamProvs f (nmid + D.gm.length + D.om.length)
          (npid + famProvCount D.gm + famProvCount D.om) D.qm)
    (by simpa [mkAllProvs, List.append_assoc] using hdbP)
    holdP
    (fun p hp => by
      rcases List.mem_append.mp hp with hp | hp
      · exact (mkFamProvs_model_id_bounds f D.om _ _ p hp).1
      · have := (mkFamProvs_model_id_bounds f D.qm _ _ p hp).1
        omega)
  have hserO := famSer db2 cid "openai_models" f hf D.om (nmid + D.gm.length)
    (npid + famProvCount D.gm)
    (oldP ++ mkFamProvs f nmid npid D.gm)
    (mkFamProvs f (nmid + D.gm.length + D.om.length)
      (npid + famProvCount D.gm + famProvCount D.om) D.qm)
    (by simpa [mkAllProvs, List.append_assoc] using hdbP)
    (fun p hp => by
      rcases List.mem_append.mp hp with hp | hp
      · have := holdP p hp
        omega
      · exact (mkFamProvs_model_id_bounds f D.gm _ _ p hp).2)
    (fun p hp => (mkFamProvs_model_id_bounds f D.qm _ _ p hp).1)
  have hserQ := famSer db2 cid "qwen_models" f hf D.qm
    (nmid + D.gm.length + D.om.length)
    (npid + famProvCount D.gm + famProvCount D.om)
    (oldP ++ (mkFamProvs f nmid npid D.gm
      ++ mkFamProvs f (nmid + D.gm.length) (npid + famProvCount D.gm) D.om))
    []
    (by simpa [mkAllProvs, List.append_assoc] using hdbP)
    (fun p hp => by
      rcases List.mem_append.mp hp with hp | hp
      · have := holdP p hp
        omega
      · rcases List.mem_append.mp hp with hp | hp
        · have := (mkFamProvs_model_id_bounds f D.gm _ _ p hp).2
          omega
        · exact (mkFamProvs_model_id_bounds f D.om _ _ p hp).2)
    (fun p hp => by cases hp)
  have hneG : ((modelsFam db2 cid "google_models").map (fun m => m.name)).Nodup := by
    rw [hmg, mkFamModels_names]
    exact hn1
  have hneO : ((modelsFam db2 cid "openai_models").map (fun m => m.name)).Nodup := by
    rw [hmo, mkFamModels_names]
    exact hn2
  have hneQ : ((modelsFam db2 cid "qwen_models").map (fun m => m.name)).Nodup := by
    rw [hmq, mkFamModels_names]
    exact hn3
  unfold to_json
  rw [famEntry_eq_map db2 cid "google_models" hneG,
    famEntry_eq_map db2 cid "openai_models" hneO,
    famEntry_eq_map db2 cid "qwen_models" hneQ,
    hmg, hmo, hmq, hserG, hserO, hserQ, hag, hao, haq]
  rfl

theorem to_json_snapshot (db : DB) (c : Nat) (n : String) (cid : Nat) :
    to_json (snapshot_version db c n) cid = to_json db cid := rfl

/-! ## C4: restore appends an equal version -/

/-- Claim C4 counterexample: config 1 of `seedDb` has a provider with
weight 0 (settable through `update_provider`, which coerces with a bare
`float(...)`).  Snapshotting stores a blob whose provider carries
`"weight": 0.0`; restoring that version succeeds but rebuilds the provider
with weight 1.0 (`float(p.get("weight", 1.0) or 1.0)` replaces the falsy
0.0), so the snapshot taken after the restore (version 2) omits the weight
key and its JSON content differs from version 1's. -/
theorem c4_counterexample :
    (restore_version (snapshot_version seedDb 1 "v1") 1 1 1).status = HStatus.ok ∧
    ((restore_version (snapshot_version seedDb 1 "v1") 1 1 1).db.versions.map
        (fun w => w.version)) = [1, 2] ∧
    ((restore_version (snapshot_version seedDb 1 "v1") 1 1 1).db.versions.map
        (fun w => blobWeightKeyAt w.json_blob "google_models" "m" 0)) = [true, false] ∧
    (∀ b1 b2 : JVal, blobWeightKeyAt b1 "google_models" "m" 0 = true →
        blobWeightKeyAt b2 "google_models" "m" 0 = false → b1 ≠ b2) := by
  refine ⟨by rfl, by rfl, by rfl, ?_⟩
  intro b1 b2 h1 h2 he
  rw [he] at h1
  exact absurd (h1.symm.trans h2) (by decide)

/-- Claim C4 (amended): for a stored version whose blob is a canonical
snapshot with truthy provider fields (`input_size ≠ 0`, `weight ≠ 0`) and
per-family distinct model names, restoring succeeds and appends exactly one
new version, numbered `(max existing) + 1`, whose JSON content equals the
restored version's stored content; every previously stored version remains
present and unchanged. -/
theorem c4_restore_appends_equal_version
    (db : DB) (uid cid ver : Nat) (cfg : Config) (v : ConfigVersion) (D : BlobDesc)
    (hfresh : Fresh db)
    (hc : db.configs.find? (fun g => g.id == cid && g.user_id == uid) = some cfg)
    (hv : db.versions.find? (fun w => w.config_id == cid && w.version == ver) = some v)
    (hD : v.json_blob = encodeBlob D)
    (hg : GoodBlobDesc D) :
    restore_version db uid cid ver
      = ⟨.ok, (restore_version db uid cid ver).db⟩ ∧
    (restore_version db uid cid ver).db.versions
      = db.versions ++ [⟨cid, maxVersion db cid + 1,
          "Restored version " ++ toString ver, v.json_blob⟩] := by
  have hofnat : ∀ i j : Nat, i ≤ j → Int.ofNat i ≤ Int.ofNat j :=
    fun i j h => Int.ofNat_le.mpr h
  set db1 := clearConfigState db cid with hdb1def
  set dbR : DB := { db1 with
    models := db1.models ++ mkAllModels cid db1.next_model_id D,
    providers := db1.providers
      ++ mkAllProvs Int.ofNat db1.next_model_id db1.next_provider_id D,
    actives := db1.actives ++ mkActs cid D,
    next_model_id := db1.next_model_id + D.gm.length + D.om.length + D.qm.length,
    next_provider_id := db1.next_provider_id + famProvCount D.gm
      + famProvCount D.om + famProvCount D.qm } with hdbRdef
  have hbuild : restoreBuild (encodeBlob D) cid db1 = some dbR :=
    restoreBuild_encode cid D db1 hg
  have holdM : ∀ m ∈ db1.models, m.config_id ≠ cid := by
    intro m hm
    rw [hdb1def] at hm
    simp only [clearConfigState, List.mem_filter] at hm
    simpa using hm.2
  have holdP : ∀ p ∈ db1.providers, p.model_id < db1.next_model_id := by
    intro p hp
    rw [hdb1def] at hp
    simp only [clearConfigState, List.mem_filter] at hp
    exact (hfresh.2.2.1 p hp.1).2
  have holdA : ∀ a ∈ db1.actives, a.config_id ≠ cid := by
    intro a ha
    rw [hdb1def] at ha
    simp only [clearConfigState, List.mem_filter] at ha
    simpa using ha.2
  have hjson : to_json dbR cid = encodeBlob D :=
    to_json_rebuilt dbR cid D Int.ofNat hofnat db1.models db1.providers db1.actives
      db1.next_model_id db1.next_provider_id rfl rfl rfl holdM holdP holdA
      hg.1.1 hg.2.1.1 hg.2.2.1
  constructor
  · simp only [restore_version, hc, hv, hD, hbuild]
  · simp only [restore_version, hc, hv, hD, hbuild]
    simp only [snapshot_version, hjson]
    rw [← hD]
    rfl

/-- Concrete blob description for the C4/C5 witnesses. -/
def dEx : BlobDesc :=
  ⟨[("m", [⟨"p", "h", "t", "vllm", 100, "mp", 2⟩])], [], [], ["m"], [], []⟩

/-- State holding `encodeBlob dEx` as version 1 of config 1. -/
def dbWithGoodVersion : DB :=
  { dbEmpty with
    configs := [⟨1, "cfg", false, 1, 1, ""⟩],
    versions := [⟨1, 1, "v1", encodeBlob dEx⟩],
    next_config_id := 2 }

theorem c4_witness :
    (Fresh dbWithGoodVersion ∧
     dbWithGoodVersion.configs.find? (fun g => g.id == 1 && g.user_id == 1)
       = some ⟨1, "cfg", false, 1, 1, ""⟩ ∧
     dbWithGoodVersion.versions.find? (fun w => w.config_id == 1 && w.version == 1)
       = some ⟨1, 1, "v1", encodeBlob dEx⟩ ∧
     GoodBlobDesc dEx) ∧
    (restore_version dbWithGoodVersion 1 1 1
       = ⟨.ok, (restore_version dbWithGoodVersion 1 1 1).db⟩ ∧
     (restore_version dbWithGoodVersion 1 1 1).db.versions
       = dbWithGoodVersion.versions ++ [⟨1, maxVersion dbWithGoodVersion 1 + 1,
           "Restored version " ++ toString 1, encodeBlob dEx⟩]) :=
  ⟨⟨by decide, rfl, rfl, by decide⟩,
   c4_restore_appends_equal_version dbWithGoodVersion 1 1 1 _ _ dEx
     (by decide) rfl rfl rfl (by decide)⟩

/-! ## C5: import/export round-trip -/

/-- Claim C5 counterexample: `to_json seedDb 1` is a valid export blob (its
provider has weight 0.0, reachable via `update_provider`), the import of
that blob succeeds, but exporting the imported config drops the weight key
(the falsy 0.0 was replaced by the default 1.0 during import), so the
round-trip is not field-for-field. -/
theorem c5_counterexample :
    (import_config seedDb 1 "copy" "" "ts" 1 (to_json seedDb 1)).status = HStatus.ok ∧
    blobWeightKeyAt (to_json seedDb 1) "google_models" "m" 0 = true ∧
    blobWeightKeyAt
        (to_json (import_config seedDb 1 "copy" "" "ts" 1 (to_json seedDb 1)).db 2)
        "google_models" "m" 0 = false ∧
    to_json (import_config seedDb 1 "copy" "" "ts" 1 (to_json seedDb 1)).db 2
      ≠ to_json seedDb 1 := by
  refine ⟨by rfl, by rfl, by rfl, ?_⟩
  intro he
  have h1 : blobWeightKeyAt
      (to_json (import_config seedDb 1 "copy" "" "ts" 1 (to_json seedDb 1)).db 2)
      "google_models" "m" 0 = false := by rfl
  have h2 : blobWeightKeyAt (to_json seedDb 1) "google_models" "m" 0 = true := by rfl
  rw [he, h2] at h1
  exact absurd h1 (by decide)

/-- Claim C5 (amended): for a canonical export blob with truthy provider
fields (`input_size ≠ 0`, `weight ≠ 0`) and per-family distinct model
names, importing it succeeds and exporting the newly created config
reproduces the blob exactly — all fields, provider ordering included, over
the enabled-only exported view. -/
theorem c5_import_export_roundtrip
    (db : DB) (uid : Nat) (name0 desc ts : String) (projId : Nat) (D : BlobDesc)
    (hfresh : Fresh db)
    (hg : GoodBlobDesc D)
    (hfree : db.configs.find? (fun g =>
        g.name == (if pyStrTrim name0 == "" then "import-" ++ ts else pyStrTrim name0)
        && g.user_id == uid) = none) :
    import_config db uid name0 desc ts projId (encodeBlob D)
      = ⟨.ok, (import_config db uid name0 desc ts projId (encodeBlob D)).db⟩ ∧
    to_json (import_config db uid name0 desc ts projId (encodeBlob D)).db
        db.next_config_id = encodeBlob D := by
  have hzero : ∀ i j : Nat, i ≤ j → (fun _ : Nat => (0 : Int)) i ≤ (fun _ : Nat => (0 : Int)) j :=
    fun _ _ _ => le_refl _
  set cid := db.next_config_id with hciddef
  set db0 : DB := { db with
    configs := db.configs
      ++ [⟨cid, if pyStrTrim name0 == "" then "import-" ++ ts else pyStrTrim name0,
           false, uid, projId, desc⟩],
    next_config_id := cid + 1 } with hdb0def
  set dbR : DB := { db0 with
    models := db0.models ++ mkAllModels cid db0.next_model_id D,
    providers := db0.providers
      ++ mkAllProvs (fun _ => 0) db0.next_model_id db0.next_provider_id D,
    actives := db0.actives ++ mkActs cid D,
    next_model_id := db0.next_model_id + D.gm.length + D.om.length + D.qm.length,
    next_provider_id := db0.next_provider_id + famProvCount D.gm
      + famProvCount D.om + famProvCount D.qm } with hdbRdef
  have hbuild : importBuild (encodeBlob D) cid db0 = some dbR :=
    importBuild_encode cid D db0 hg
  have holdM : ∀ m ∈ db0.models, m.config_id ≠ cid := by
    intro m hm
    rw [hdb0def] at hm
    exact Nat.ne_of_lt (hfresh.2.1 m hm).2
  have holdP : ∀ p ∈ db0.providers, p.model_id < db0.next_model_id := by
    intro p hp
    rw [hdb0def] at hp
    exact (hfresh.2.2.1 p hp).2
  have holdA : ∀ a ∈ db0.actives, a.config_id ≠ cid := by
    intro a ha
    rw [hdb0def] at ha
    exact Nat.ne_of_lt (hfresh.2.2.2 a ha)
  have hjson : to_json dbR cid = encodeBlob D :=
    to_json_rebuilt dbR cid D (fun _ => 0) hzero db0.models db0.providers db0.actives
      db0.next_model_id db0.next_provider_id rfl rfl rfl holdM holdP holdA
      hg.1.1 hg.2.1.1 hg.2.2.1
  constructor
  · simp only [import_config, hfree, hbuild]
  · simp only [import_config, hfree, hbuild]
    show to_json (snapshot_version dbR cid "Import JSON") cid = encodeBlob D
    rw [to_json_snapshot]
    exact hjson

theorem c5_witness :
    (Fresh dbEmpty ∧ GoodBlobDesc dEx ∧
     dbEmpty.configs.find? (fun g =>
        g.name == (if pyStrTrim "n" == "" then "import-" ++ "ts" else pyStrTrim "n")
        && g.user_id == 1) = none) ∧
    (import_config dbEmpty 1 "n" "" "ts" 1 (encodeBlob dEx)
       = ⟨.ok, (import_config dbEmpty 1 "n" "" "ts" 1 (encodeBlob dEx)).db⟩ ∧
     to_json (import_config dbEmpty 1 "n" "" "ts" 1 (encodeBlob dEx)).db
         dbEmpty.next_config_id = encodeBlob dEx) :=
  ⟨⟨by decide, by decide, rfl⟩,
   c5_import_export_roundtrip dbEmpty 1 "n" "" "ts" 1 dEx (by decide) (by decide) rfl⟩

end LRW
